import Mathlib

/-!
A shallow embedding of the core of the prefab container-image build
orchestrator (`lib/prefab/image/graph.py`, `lib/prefab/image/factory.py`,
`lib/prefab/image/docker.py` plus the configuration accessors of
`lib/prefab/config.py` and the exception classes of `lib/prefab/errors.py`),
together with proofs about the dependency resolver, the digest/tag engine
and the build/push orchestrator.

External collaborators (the docker engine, the filesystem, the hashlib
hash functions) are modelled as explicit environment parameters; all
functions of the repository itself are translated directly from the
Python source.
-/

namespace Prefab

/-- The exception classes of `lib/prefab/errors.py` (each carries its
message), plus two constructors for behaviour of the Python runtime
itself: `keyError` models the built-in `KeyError` raised by a `dict`
lookup on a missing key, and `fuelExhausted` models non-termination of
the (unbounded) recursion in `_resolve_target_images`, which the shallow
embedding bounds with explicit fuel. -/
inductive PrefabError where
  | hashAlgorithmNotFound (msg : String)
  | imageAccessError (msg : String)
  | imageBuildError (msg : String)
  | imageNotFoundError (msg : String)
  | imagePushError (msg : String)
  | imageValidationError (msg : String)
  | invalidConfigError (msg : String)
  | targetTagError (msg : String)
  | targetCyclicError (msg : String)
  | targetNotFoundError (msg : String)
  | keyError (key : String)
  | fuelExhausted
deriving Repr, DecidableEq

/-- The per-target section of the build config, after
`Config.get_target` has filled in the defaults for `depends_on` and
`watch_files` (`lib/prefab/config.py`).  `build_options` overrides are
not needed by any claim and are omitted. -/
structure TargetConfig where
  dockerfile : String
  depends_on : List String
  watch_files : List String
deriving Repr, DecidableEq

/-- The validated build configuration (`lib/prefab/config.py`): the
`targets` mapping (a Python `dict`, embedded as an association list in
insertion order) and the option values returned by the `Config`
properties, already resolved against the defaults of
`lib/prefab/constants.py`.  The `buildarg_prefix` option of the source
is embedded under the name `buildargStem`. -/
structure PrefabConfig where
  targets : List (String × TargetConfig)
  allowed_pull_errors : List String := ["ImageAccessError", "ImageNotFoundError", "ImageValidationError"]
  buildargStem : String := "PREFAB_"
  build_on_validate_error : Bool := true
  hash_algorithm : String := "sha256"
  ignore_files : List String := []
  prune_after_build : Bool := true
  short_digest_size : Nat := 12
  target_label : String := "prefab.target"
  digest_label : String := "prefab.digest"
  validate_image : Bool := true

/-- First-match association-list lookup, the embedding of a Python
`dict` read (`dict` keys are unique, so first match is the match). -/
def lookupA {α : Type} : List (String × α) → String → Option α
  | [], _ => none
  | (k, v) :: rest, key => if k = key then some v else lookupA rest key

/-- `Config.get_target`: return the target section or fail with
`TargetNotFoundError` (`lib/prefab/config.py`). -/
def getTarget (cfg : PrefabConfig) (name : String) : Except PrefabError TargetConfig :=
  match lookupA cfg.targets name with
  | some tc => .ok tc
  | none => .error (.targetNotFoundError ("Target [" ++ name ++ "] not found in build config"))

/-- The declared dependencies of a target (empty for unknown targets);
a convenience view of the config used to state graph properties. -/
def depsOf (cfg : PrefabConfig) (name : String) : List String :=
  match lookupA cfg.targets name with
  | some tc => tc.depends_on
  | none => []

/-- `name` is a target of the configuration. -/
def isTarget (cfg : PrefabConfig) (name : String) : Prop :=
  (lookupA cfg.targets name).isSome = true

instance (cfg : PrefabConfig) (name : String) : Decidable (isTarget cfg name) := by
  unfold isTarget; infer_instance

/-- The dependency edge relation of the configuration: `a` declares a
dependency on `b`. -/
def depEdge (cfg : PrefabConfig) (a b : String) : Prop :=
  b ∈ depsOf cfg a

instance (cfg : PrefabConfig) (a b : String) : Decidable (depEdge cfg a b) := by
  unfold depEdge; infer_instance

/-- All dependency edges of the configuration, as a list. -/
def edgePairs (cfg : PrefabConfig) : List (String × String) :=
  cfg.targets.flatMap (fun p => p.2.depends_on.map (fun d => (p.1, d)))

/-- Every declared dependency of a configured target is itself a
configured target (the closed-registry hypothesis for graph claims). -/
def Closed (cfg : PrefabConfig) : Prop :=
  ∀ p ∈ cfg.targets, ∀ d ∈ p.2.depends_on, isTarget cfg d

instance (cfg : PrefabConfig) : Decidable (Closed cfg) := by
  unfold Closed; infer_instance

/-- `b` is transitively reachable from `a` along dependency edges
(reflexively: every target reaches itself). -/
def Reaches (cfg : PrefabConfig) (a b : String) : Prop :=
  Relation.ReflTransGen (depEdge cfg) a b

/-- `t` lies on a dependency cycle (of any length, self-loops
included). -/
def OnCycle (cfg : PrefabConfig) (t : String) : Prop :=
  Relation.TransGen (depEdge cfg) t t

/-- The configuration has no dependency cycle at all. -/
def Acyclic (cfg : PrefabConfig) : Prop :=
  ∀ t, ¬ OnCycle cfg t

/-- The `for dependent in ... depends_on` loop body of
`ImageGraph._resolve_target_images` (`lib/prefab/image/graph.py`):
check the edge against the active path, raise `TargetCyclicError` on a
repeat, otherwise recurse with the edge pushed.  The recursion into the
dependency is abstracted as the function argument `f`, so that the
outer function stays structurally recursive in its fuel. -/
def resolveImageDeps
    (f : String → List String → List (String × String) → Except PrefabError (List String))
    (target : String) :
    List String → List String → List (String × String) → Except PrefabError (List String)
  | [], images, _ => .ok images
  | d :: ds, images, vectors =>
    if (target, d) ∈ vectors then
      .error (.targetCyclicError ("Target [" ++ target ++ "] has circular dependencies"))
    else
      match f d images (vectors ++ [(target, d)]) with
      | .error e => .error e
      | .ok images1 => resolveImageDeps f target ds images1 vectors

/-- `ImageGraph._resolve_target_images` (`lib/prefab/image/graph.py`),
with the image objects identified by their target names (the factory
memoizes one image instance per target name, so Python object identity
coincides with name equality).  The depth-first recursion of the source
is bounded here by explicit fuel; `fuelExhausted` stands for
non-termination and is proved unreachable for the fuel used by
`resolveTargetImages`.  `vectors` is the active-path edge list: the
source appends the edge before recursing and pops it afterwards, which
in this functional form is passing `vectors ++ [(target, d)]` to the
recursive call only. -/
def resolveImagesAux (cfg : PrefabConfig) :
    Nat → String → List String → List (String × String) → Except PrefabError (List String)
  | 0, _, _, _ => .error .fuelExhausted
  | fuel + 1, target, images, vectors =>
    match getTarget cfg target with
    | .error e => .error e
    | .ok tc =>
      match resolveImageDeps (resolveImagesAux cfg fuel) target tc.depends_on images vectors with
      | .error e => .error e
      | .ok images1 => .ok (if target ∈ images1 then images1 else images1 ++ [target])

/-- `ImageGraph.resolve_target_images`: run the depth-first resolution
from an empty result list and an empty active path.  The fuel
`(edgePairs cfg).length + 1` is proved sufficient below: each
recursion level pushes a distinct configured edge onto the active
path. -/
def resolveTargetImages (cfg : PrefabConfig) (target : String) : Except PrefabError (List String) :=
  resolveImagesAux cfg ((edgePairs cfg).length + 1) target [] []

/-- Position of the first occurrence of a name in a list (length of the
list when absent); used to state the dependency-first ordering. -/
def idxOf : List String → String → Nat
  | [], _ => 0
  | x :: rest, a => if x = a then 0 else idxOf rest a + 1

/-- Invariant of the resolver's result list: no duplicates, and every
member is a configured target whose dependencies all appear strictly
earlier in the list. -/
def GoodList (cfg : PrefabConfig) (l : List String) : Prop :=
  l.Nodup ∧ ∀ x ∈ l, isTarget cfg x ∧
    ∀ d, depEdge cfg x d → d ∈ l ∧ idxOf l d < idxOf l x

/-- The active-path edge list is a consecutive chain whose last edge
points at the given target. -/
def ChainTo : List (String × String) → String → Prop
  | [], _ => True
  | (_, b) :: rest, t =>
    match rest with
    | [] => b = t
    | (c, _) :: _ => b = c ∧ ChainTo rest t

/-- Success property of one recursion step of the resolver: the result
extends the input list, keeps the `GoodList` invariant, and contains
the resolved target. -/
def StepGood (cfg : PrefabConfig)
    (f : String → List String → List (String × String) → Except PrefabError (List String)) : Prop :=
  ∀ t images vectors l, f t images vectors = .ok l → GoodList cfg images →
    GoodList cfg l ∧ t ∈ l ∧ ∃ r, l = images ++ r

/-- Success property of one recursion step: every name in the result
was already present or is reachable from the resolved target. -/
def StepReach (cfg : PrefabConfig)
    (f : String → List String → List (String × String) → Except PrefabError (List String)) : Prop :=
  ∀ t images vectors l, f t images vectors = .ok l →
    ∀ x ∈ l, x ∈ images ∨ Reaches cfg t x

/-- The only error kinds the resolver itself can produce. -/
def ResolveErr (e : PrefabError) : Prop :=
  (∃ m, e = .targetNotFoundError m) ∨ (∃ m, e = .targetCyclicError m) ∨ e = .fuelExhausted

/-- The diamond graph of the spec: a→[b,c], b→d, c→d. -/
def diamondCfg : PrefabConfig :=
  { targets := [
      ("a", { dockerfile := "Dockerfile.a", depends_on := ["b", "c"], watch_files := [] }),
      ("b", { dockerfile := "Dockerfile.b", depends_on := ["d"], watch_files := [] }),
      ("c", { dockerfile := "Dockerfile.c", depends_on := ["d"], watch_files := [] }),
      ("d", { dockerfile := "Dockerfile.d", depends_on := [], watch_files := [] })] }

/-- Rank certificate for the diamond graph. -/
def diamondRank (n : String) : Nat :=
  if n = "a" then 3 else if n = "b" then 2 else if n = "c" then 2 else 1

/-- A two-target dependency cycle: a→b, b→a. -/
def loopCfg : PrefabConfig :=
  { targets := [
      ("a", { dockerfile := "Dockerfile.a", depends_on := ["b"], watch_files := [] }),
      ("b", { dockerfile := "Dockerfile.b", depends_on := ["a"], watch_files := [] })] }

/-- External collaborators of the digest engine
(`lib/prefab/image/factory.py`): the image repo given to the factory,
the hash function of the configured algorithm (`hashlib` — `hashFn` is
the hexdigest of the concatenation of all `update` arguments),
`hashlib.algorithms_available`, the filesystem (file contents by path,
the directory bit of `os.stat`), and the directory walker `walk` of
`lib/prefab/walk.py` (driven by `os.walk`, returning the filtered,
sorted file list of a directory).  `get_file_digest` streams a file in
fixed-size chunks, whose concatenation is the file's contents, so the
file digest is `hashFn` of the contents. -/
structure FactoryEnv where
  repo : String
  hashFn : String → String
  algorithms : List String
  contents : String → String
  isDir : String → Bool
  walkFn : String → List String → List String

/-- The mutable memo state of `ImageFactory`: the `tags` dict
(pre-seeded with the caller-supplied explicit tags) and the `digests`
dict, both in insertion order. -/
structure FactoryState where
  tags : List (String × String)
  digests : List (String × String)
deriving Repr, DecidableEq

/-- `ImageFactory.get_hasher`: fail with `HashAlgorithmNotFound` when
the configured algorithm is not available, else hand out a fresh
hasher (the hasher itself is the accumulated update string, folded into
`hashFn` at hexdigest time). -/
def getHasher (env : FactoryEnv) (cfg : PrefabConfig) : Except PrefabError Unit :=
  if cfg.hash_algorithm ∈ env.algorithms then .ok ()
  else .error (.hashAlgorithmNotFound (cfg.hash_algorithm ++ " not found in hashlib"))

/-- `ImageFactory.get_file_digest`: hexdigest of the chunk-streamed file
contents. -/
def getFileDigest (env : FactoryEnv) (cfg : PrefabConfig) (path : String) :
    Except PrefabError String :=
  match getHasher env cfg with
  | .error e => .error e
  | .ok _ => .ok (env.hashFn (env.contents path))

/-- `ImageFactory._get_target_watch_files`: the target's dockerfile
first, then each watched path, directories expanded through `walk`. -/
def getTargetWatchFiles (env : FactoryEnv) (cfg : PrefabConfig) (target : String) :
    Except PrefabError (List String) :=
  match getTarget cfg target with
  | .error e => .error e
  | .ok tc =>
    .ok (tc.dockerfile ::
      tc.watch_files.flatMap (fun p => if env.isDir p then env.walkFn p cfg.ignore_files else [p]))

/-- `ImageFactory.get_target_salt`: hexdigest of the target name. -/
def getTargetSalt (env : FactoryEnv) (cfg : PrefabConfig) (target : String) :
    Except PrefabError String :=
  match getHasher env cfg with
  | .error e => .error e
  | .ok _ => .ok (env.hashFn target)

/-- `ImageFactory._get_target_digest`: update a running hash with the
target's salt, then with each watch file's digest in order, then with
each dependency's digest in declared order — the dependency digest
being read directly from the `digests` dict (`self.digests[dependency]`
in the source), so a missing entry raises `KeyError`. -/
def getTargetDigestOnce (env : FactoryEnv) (cfg : PrefabConfig) (st : FactoryState)
    (target : String) : Except PrefabError String :=
  match getHasher env cfg with
  | .error e => .error e
  | .ok _ =>
    match getTarget cfg target with
    | .error e => .error e
    | .ok tc =>
      match getTargetSalt env cfg target with
      | .error e => .error e
      | .ok salt =>
        match getTargetWatchFiles env cfg target with
        | .error e => .error e
        | .ok files =>
          match files.mapM (getFileDigest env cfg) with
          | .error e => .error e
          | .ok fileDigests =>
            match tc.depends_on.mapM (fun d =>
                match lookupA st.digests d with
                | some dd => Except.ok dd
                | none => Except.error (PrefabError.keyError d)) with
            | .error e => .error e
            | .ok depDigests =>
              .ok (env.hashFn (salt ++ String.join fileDigests ++ String.join depDigests))

/-- `ImageFactory.get_target_digest`: memoized digest.  The third result
component is the list of targets whose digest was actually computed by
this call (empty on a memo hit), making "computed at most once"
observable. -/
def getTargetDigest (env : FactoryEnv) (cfg : PrefabConfig) (st : FactoryState)
    (target : String) : Except PrefabError (String × FactoryState × List String) :=
  match lookupA st.digests target with
  | some d => .ok (d, st, [])
  | none =>
    match getTargetDigestOnce env cfg st target with
    | .error e => .error e
    | .ok d => .ok (d, { st with digests := st.digests ++ [(target, d)] }, [target])

/-- `ImageFactory.get_target_tag`: the memoized tag — the caller-supplied
explicit tag when one was given, otherwise the first
`short_digest_size` characters of the target digest. -/
def getTargetTag (env : FactoryEnv) (cfg : PrefabConfig) (st : FactoryState)
    (target : String) : Except PrefabError (String × FactoryState × List String) :=
  match lookupA st.tags target with
  | some tg => .ok (tg, st, [])
  | none =>
    match getTargetDigest env cfg st target with
    | .error e => .error e
    | .ok (d, st1, tr) =>
      .ok (d.take cfg.short_digest_size,
        { st1 with tags := st1.tags ++ [(target, d.take cfg.short_digest_size)] }, tr)

/-- Python `dict` assignment on an association list: replace the value
in place when the key exists, else append. -/
def upsert : List (String × String) → String → String → List (String × String)
  | [], k, v => [(k, v)]
  | (k1, v1) :: rest, k, v =>
    if k1 = k then (k, v) :: rest else (k1, v1) :: upsert rest k v

/-- The normalized build-argument identifier of a dependency: the
configured buildarg prefix option prepended, upper-cased, `-` replaced
by `_` (`ImageFactory.get_target_buildargs`).  Upper-casing followed by
replacing the single character `-` is performed character-wise. -/
def buildargKey (cfg : PrefabConfig) (dependency : String) : String :=
  ⟨(cfg.buildargStem ++ dependency).data.map (fun c => if c = '-' then '_' else c.toUpper)⟩

/-- The `for dependency in ... depends_on` loop of
`ImageFactory.get_target_buildargs`: one dict assignment per declared
dependency, mapping the normalized identifier to `"repo:tag(dep)"`. -/
def getTargetBuildargsLoop (env : FactoryEnv) (cfg : PrefabConfig) :
    List String → List (String × String) → FactoryState →
    Except PrefabError (List (String × String) × FactoryState)
  | [], acc, st => .ok (acc, st)
  | d :: ds, acc, st =>
    match getTargetTag env cfg st d with
    | .error e => .error e
    | .ok (tg, st1, _) =>
      getTargetBuildargsLoop env cfg ds
        (upsert acc (buildargKey cfg d) (env.repo ++ ":" ++ tg)) st1

/-- `ImageFactory.get_target_buildargs`. -/
def getTargetBuildargs (env : FactoryEnv) (cfg : PrefabConfig) (st : FactoryState)
    (target : String) : Except PrefabError (List (String × String) × FactoryState) :=
  match getTarget cfg target with
  | .error e => .error e
  | .ok tc => getTargetBuildargsLoop env cfg tc.depends_on [] st

/-- A neutral collaborator environment for concrete digest-engine
scenarios: the identity-style hash, a one-file filesystem, no
directories. -/
def plainEnv : FactoryEnv :=
  { repo := "repo", hashFn := fun s => s, algorithms := ["sha256"],
    contents := fun _ => "data", isDir := fun _ => false, walkFn := fun _ _ => [] }

/-- Two targets, a depending on b. -/
def c3Cfg : PrefabConfig :=
  { targets := [
      ("a", { dockerfile := "Dockerfile.a", depends_on := ["b"], watch_files := [] }),
      ("b", { dockerfile := "Dockerfile.b", depends_on := [], watch_files := [] })] }

/-- A target whose two distinct dependencies collide after buildarg
normalization (`a-b` and `a_b` both normalize to `PREFAB_A_B`). -/
def c10Cfg : PrefabConfig :=
  { targets := [
      ("t", { dockerfile := "Dockerfile.t", depends_on := ["a-b", "a_b"], watch_files := [] }),
      ("a-b", { dockerfile := "Dockerfile.ab", depends_on := [], watch_files := [] }),
      ("a_b", { dockerfile := "Dockerfile.ab2", depends_on := [], watch_files := [] })] }

/-- Explicit caller-supplied tags for the two colliding dependencies. -/
def c10St : FactoryState := ⟨[("a-b", "x"), ("a_b", "y")], []⟩

/-- The digest computation as the spec phrases it (for the amended C3):
the hash of the target salt, followed by the watch-file content digests
in order with the recipe first, followed by the dependency digests in
declared order as found in the memo. -/
def specDigest (env : FactoryEnv) (cfg : PrefabConfig) (st : FactoryState)
    (t : String) (tc : TargetConfig) : String :=
  env.hashFn (env.hashFn t
    ++ String.join ((tc.dockerfile ::
        tc.watch_files.flatMap
          (fun p => if env.isDir p then env.walkFn p cfg.ignore_files else [p])).map
        (fun p => env.hashFn (env.contents p)))
    ++ String.join (tc.depends_on.map (fun d => (lookupA st.digests d).getD "")))

/-- A target with two dependencies whose normalized identifiers stay
distinct, both with explicit tags. -/
def c10w : PrefabConfig :=
  { targets := [
      ("t", { dockerfile := "Dockerfile.t", depends_on := ["u", "v"], watch_files := [] }),
      ("u", { dockerfile := "Dockerfile.u", depends_on := [], watch_files := [] }),
      ("v", { dockerfile := "Dockerfile.v", depends_on := [], watch_files := [] })] }

/-- Per-image behaviour of the docker engine collaborator as consumed by
`lib/prefab/image/docker.py`: whether `repo:tag` is initially among the
local images, the outcome of a pull (`none` = success; `some e` = the
prefab exception the pull surfaces as), the labels the engine reports
for the image (read by `validate`), and the outcomes of build and
push. -/
structure ImageEnv where
  present : Bool := false
  pullError : Option PrefabError := none
  reportedLabels : List (String × String) := []
  buildError : Option PrefabError := none
  pushError : Option PrefabError := none

/-- The mutable state of one `DockerImage` instance
(`lib/prefab/image/docker.py`): the expected labels it was constructed
with (`build_options["labels"]`), the cached tri-state `_loaded` flag,
and the `was_pulled` / `was_built` markers.  Instances are memoized one
per target name, so they are identified here by target name. -/
structure ImageState where
  labels : List (String × String) := []
  loaded : Option Bool := none
  was_pulled : Bool := false
  was_built : Bool := false
deriving Repr, DecidableEq

/-- The image is in the engine's local store: initially present, or
pulled or built during this run (the model of the engine's mutable
store behind `_get_docker_image`). -/
def dockerPresent (env : ImageEnv) (st : ImageState) : Bool :=
  env.present || st.was_pulled || st.was_built

/-- `DockerImage.is_loaded`: lazily resolved through the engine and
cached in the instance. -/
def isLoaded (env : ImageEnv) (st : ImageState) : Bool × ImageState :=
  match st.loaded with
  | some b => (b, st)
  | none =>
    let b := dockerPresent env st
    (b, { st with loaded := some b })

/-- `DockerImage.pull`: on success mark present and pulled
(`_pull_success`); a failing pull surfaces the configured exception. -/
def imagePull (env : ImageEnv) (st : ImageState) : Except PrefabError ImageState :=
  match env.pullError with
  | some e => .error e
  | none => .ok { st with loaded := some true, was_pulled := true }

/-- `DockerImage.validate`: look the image up in the engine (not-found
when absent), then compare every expected label against the
engine-reported labels; the first mismatch raises
`ImageValidationError` naming the label. -/
def imageValidate (env : ImageEnv) (st : ImageState) : Except PrefabError Unit :=
  if dockerPresent env st = false then
    .error (.imageNotFoundError "image not found")
  else
    match st.labels.find? (fun p => decide (lookupA env.reportedLabels p.1 ≠ some p.2)) with
    | some p => .error (.imageValidationError ("label " ++ p.1))
    | none => .ok ()

/-- `DockerImage.build`: on success mark built and present
(`_build_success`); a failing build surfaces the configured
exception. -/
def imageBuild (env : ImageEnv) (st : ImageState) : Except PrefabError ImageState :=
  match env.buildError with
  | some e => .error e
  | none => .ok { st with was_built := true, loaded := some true }

/-- `DockerImage.push`. -/
def imagePush (env : ImageEnv) : Except PrefabError Unit :=
  match env.pushError with
  | some e => .error e
  | none => .ok ()

/-- One structured log event per lifecycle decision of
`lib/prefab/image/graph.py` (the literal log lines of the source). -/
inductive BuildEvent where
  | imageLoaded (target : String)
  | imageNotLoaded (target : String)
  | triedPull (target : String)
  | pullErrorAllowed (target : String)
  | imageValidated (target : String)
  | validationTolerated (target : String)
  | triedBuild (target : String)
  | pruned (target : String)
  | triedPush (target : String)
  | skippedPush (target : String)
deriving Repr, DecidableEq

/-- `type(error).__name__` for the modelled exceptions. -/
def errName : PrefabError → String
  | .hashAlgorithmNotFound _ => "HashAlgorithmNotFound"
  | .imageAccessError _ => "ImageAccessError"
  | .imageBuildError _ => "ImageBuildError"
  | .imageNotFoundError _ => "ImageNotFoundError"
  | .imagePushError _ => "ImagePushError"
  | .imageValidationError _ => "ImageValidationError"
  | .invalidConfigError _ => "InvalidConfigError"
  | .targetTagError _ => "TargetTagError"
  | .targetCyclicError _ => "TargetCyclicError"
  | .targetNotFoundError _ => "TargetNotFoundError"
  | .keyError _ => "KeyError"
  | .fuelExhausted => "FuelExhausted"

/-- The error is an instance of a class defined in `errors.py` (all of
which subclass `DockerPrefabError`); the Python built-in `KeyError` and
the fuel marker are not. -/
def isDockerPrefabError : PrefabError → Bool
  | .keyError _ => false
  | .fuelExhausted => false
  | _ => true

/-- `ImageGraph.allowed_pull_errors` combined with the `isinstance`
check of `pull_target_image`: the tuple holds every class of
`errors.py` whose name appears in the configured option list, and
`isinstance` also matches any prefab error through the common base
class when `DockerPrefabError` itself is listed. -/
def isAllowedPullError (cfg : PrefabConfig) (e : PrefabError) : Bool :=
  (cfg.allowed_pull_errors.contains (errName e) && isDockerPrefabError e)
  || (cfg.allowed_pull_errors.contains "DockerPrefabError" && isDockerPrefabError e)

/-- The per-run image-instance map of the orchestrator (`self.images`),
keyed by target name and modelled as a total map. -/
abbrev WState := String → ImageState

/-- The per-image engine environment, keyed by target name. -/
abbrev EnvMap := String → ImageEnv

/-- Point update of the image map (the Python objects are mutated in
place; here the map is rebuilt at one key). -/
def updW (w : WState) (t : String) (st : ImageState) : WState :=
  fun n => if n = t then st else w n

/-- `ImageGraph.pull_target_image`: try the pull; an exception that is
an instance of the allowed tuple is logged and swallowed, any other
exception propagates.  All orchestrator steps return (events, image
map, outcome): the map is returned even on an exception, matching the
in-place mutation of the source. -/
def pullTargetImage (cfg : PrefabConfig) (env : EnvMap) (w : WState) (t : String) :
    List BuildEvent × WState × Except PrefabError Unit :=
  match imagePull (env t) (w t) with
  | .ok st1 => ([.triedPull t], updW w t st1, .ok ())
  | .error e =>
    if isAllowedPullError cfg e = false then
      ([.triedPull t], w, .error e)
    else
      ([.triedPull t, .pullErrorAllowed t], w, .ok ())

/-- The tail of `ImageGraph._load_target_image`: re-read `is_loaded`
(now cached), validate when loaded and validation is enabled, and
return the loaded flag. -/
def loadFinish (cfg : PrefabConfig) (env : EnvMap) (evs : List BuildEvent) (w : WState)
    (t : String) : List BuildEvent × WState × Except PrefabError Bool :=
  let r := isLoaded (env t) (w t)
  let w1 := updW w t r.2
  if r.1 && cfg.validate_image then
    match imageValidate (env t) (w1 t) with
    | .error e => (evs, w1, .error e)
    | .ok _ => (evs ++ [.imageValidated t], w1, .ok r.1)
  else
    (evs, w1, .ok r.1)

/-- `ImageGraph._load_target_image`: report loaded / not loaded,
attempt the pull when absent, then validate and return the loaded
flag. -/
def loadTargetImageAux (cfg : PrefabConfig) (env : EnvMap) (w : WState) (t : String) :
    List BuildEvent × WState × Except PrefabError Bool :=
  let r := isLoaded (env t) (w t)
  let w1 := updW w t r.2
  if r.1 then
    loadFinish cfg env [.imageLoaded t] w1 t
  else
    match pullTargetImage cfg env w1 t with
    | (evs, w2, .error e) => (.imageNotLoaded t :: evs, w2, .error e)
    | (evs, w2, .ok _) => loadFinish cfg env (.imageNotLoaded t :: evs) w2 t

/-- `ImageGraph.load_target_image`: catch `ImageValidationError` when
the `build_on_validate_error` fallback is enabled, reporting the image
as not loaded in that case (the `is_loaded` local of the source never
got assigned). -/
def loadTargetImage (cfg : PrefabConfig) (env : EnvMap) (w : WState) (t : String) :
    List BuildEvent × WState × Except PrefabError Bool :=
  match loadTargetImageAux cfg env w t with
  | (evs, w1, .error (.imageValidationError m)) =>
    if cfg.build_on_validate_error then
      (evs ++ [.validationTolerated t], w1, .ok false)
    else
      (evs, w1, .error (.imageValidationError m))
  | r => r

/-- `ImageGraph._build_image`: build, then prune when configured (prune
failures are logged only, never raised). -/
def buildImage (cfg : PrefabConfig) (env : EnvMap) (w : WState) (t : String) :
    List BuildEvent × WState × Except PrefabError Unit :=
  match imageBuild (env t) (w t) with
  | .error e => ([.triedBuild t], w, .error e)
  | .ok st1 =>
    if cfg.prune_after_build then
      ([.triedBuild t, .pruned t], updW w t st1, .ok ())
    else
      ([.triedBuild t], updW w t st1, .ok ())

/-- The loop of `ImageGraph.build_target_images` over one target's
build order, carrying the local `cache_invalidated` flag: build
unconditionally when `force` or the flag is set, otherwise try the
load-or-build path, and raise the flag whenever the image ends up
built. -/
def buildTargetImagesLoop (cfg : PrefabConfig) (env : EnvMap) :
    List String → WState → Bool → Bool → List BuildEvent × WState × Except PrefabError Unit
  | [], w, _, _ => ([], w, .ok ())
  | t :: rest, w, force, ci =>
    if force || ci then
      match buildImage cfg env w t with
      | (evs, w1, .error e) => (evs, w1, .error e)
      | (evs, w1, .ok _) =>
        match buildTargetImagesLoop cfg env rest w1 force true with
        | (evs2, w2, r) => (evs ++ evs2, w2, r)
    else
      match loadTargetImage cfg env w t with
      | (evs, w1, .error e) => (evs, w1, .error e)
      | (evs, w1, .ok b) =>
        match (if b then ([], w1, Except.ok ()) else buildImage cfg env w1 t) with
        | (evs2, w2, .error e) => (evs ++ evs2, w2, .error e)
        | (evs2, w2, .ok _) =>
          match buildTargetImagesLoop cfg env rest w2 force (ci || (w2 t).was_built) with
          | (evs3, w3, r) => (evs ++ evs2 ++ evs3, w3, r)

/-- `ImageGraph.build_target_images`: the local `cache_invalidated`
flag starts out false on every call. -/
def buildTargetImages (cfg : PrefabConfig) (env : EnvMap) (chain : List String) (w : WState)
    (force : Bool) : List BuildEvent × WState × Except PrefabError Unit :=
  buildTargetImagesLoop cfg env chain w force false

/-- The first loop of `ImageGraph.build`: resolve every requested
target's build order up front. -/
def resolveChains (cfg : PrefabConfig) : List String → Except PrefabError (List (String × List String))
  | [] => .ok []
  | t :: rest =>
    match resolveTargetImages cfg t with
    | .error e => .error e
    | .ok chain =>
      match resolveChains cfg rest with
      | .error e => .error e
      | .ok chains => .ok ((t, chain) :: chains)

/-- The second loop of `ImageGraph.build`: run `build_target_images`
per requested target, in request order. -/
def buildChains (cfg : PrefabConfig) (env : EnvMap) :
    List (String × List String) → WState → Bool → List BuildEvent × WState × Except PrefabError Unit
  | [], w, _ => ([], w, .ok ())
  | (_, chain) :: rest, w, force =>
    match buildTargetImages cfg env chain w force with
    | (evs, w1, .error e) => (evs, w1, .error e)
    | (evs, w1, .ok _) =>
      match buildChains cfg env rest w1 force with
      | (evs2, w2, r) => (evs ++ evs2, w2, r)

/-- `ImageGraph.build`: resolve all requested targets, then build their
chains in order.  The image instances are materialized by the factory
during resolution; their initial states are the `w` parameter. -/
def graphBuild (cfg : PrefabConfig) (env : EnvMap) (w : WState) (targets : List String)
    (force : Bool) : List BuildEvent × WState × Except PrefabError Unit :=
  match resolveChains cfg targets with
  | .error e => ([], w, .error e)
  | .ok chains => buildChains cfg env chains w force

/-- `ImageGraph.push`: for each requested target's image, consult
`is_loaded`; skip an image that was pulled and not built this run,
otherwise push; images that are not loaded are passed over silently. -/
def graphPush (env : EnvMap) : List String → WState → List BuildEvent × WState × Except PrefabError Unit
  | [], w => ([], w, .ok ())
  | t :: rest, w =>
    let r := isLoaded (env t) (w t)
    let w1 := updW w t r.2
    if r.1 then
      if r.2.was_pulled && !r.2.was_built then
        match graphPush env rest w1 with
        | (evs, w2, res) => (.skippedPush t :: evs, w2, res)
      else
        match imagePush (env t) with
        | .error e => ([.triedPush t], w1, .error e)
        | .ok _ =>
          match graphPush env rest w1 with
          | (evs, w2, res) => (.triedPush t :: evs, w2, res)
    else
      graphPush env rest w1

/-- Events emitted only by the unconditional-build path. -/
def buildPhaseEvent : BuildEvent → Bool
  | .triedBuild _ => true
  | .pruned _ => true
  | _ => false

/-- Events emitted only by a fully successful load-and-validate. -/
def loadOnlyEvent : BuildEvent → Bool
  | .imageLoaded _ => true
  | .imageValidated _ => true
  | _ => false

/-- Fresh image instances, as the factory constructs them. -/
def freshW : WState := fun _ => {}

/-- The two-target graph of the spec scenarios: app depends on base. -/
def c9Cfg : PrefabConfig :=
  { targets := [
      ("app", { dockerfile := "Dockerfile.app", depends_on := ["base"], watch_files := [] }),
      ("base", { dockerfile := "Dockerfile.base", depends_on := [], watch_files := [] })] }

/-- Engine behaviour: app's artifact exists locally (and validates,
its expected label set being empty), base is absent and its pull fails
with a not-found error. -/
def c9Env : EnvMap := fun n =>
  if n = "app" then { present := true }
  else { present := false, pullError := some (.imageNotFoundError "manifest unknown") }

/-- A registry with base only and an empty allowed-pull-error list. -/
def c7Cfg : PrefabConfig :=
  { targets := [("base", { dockerfile := "Dockerfile.base", depends_on := [], watch_files := [] })],
    allowed_pull_errors := [] }

/-- The three-target registry for the cross-chain scenario: x and y
each depend on the shared artifact a. -/
def c6Cfg : PrefabConfig :=
  { targets := [
      ("x", { dockerfile := "Dockerfile.x", depends_on := ["a"], watch_files := [] }),
      ("y", { dockerfile := "Dockerfile.y", depends_on := ["a"], watch_files := [] }),
      ("a", { dockerfile := "Dockerfile.a", depends_on := [], watch_files := [] })] }

/-- Engine behaviour for the cross-chain scenario: a and x absent with
tolerated not-found pulls, y present locally (its empty expected label
set validates). -/
def c6Env : EnvMap := fun n =>
  if n = "y" then { present := true }
  else { present := false, pullError := some (.imageNotFoundError "nf") }

/-- Per-image conditions under which the load attempt alone satisfies
an artifact: resolvably present, labels matching, not built before. -/
def LoadsClean (env : EnvMap) (w : WState) (m : String) : Prop :=
  ((w m).loaded = some true ∨ (w m).loaded = none) ∧
  dockerPresent (env m) (w m) = true ∧
  (w m).labels.find? (fun p => decide (lookupA (env m).reportedLabels p.1 ≠ some p.2)) = none ∧
  (w m).was_built = false

instance (env : EnvMap) (w : WState) (m : String) : Decidable (LoadsClean env w m) := by
  unfold LoadsClean; infer_instance

/-- The image map after a's artifact was built in an earlier chain. -/
def c6W2 : WState := fun n =>
  if n = "a" then { labels := [], loaded := some true, was_pulled := false, was_built := true }
  else {}

/-- Once an image instance is cached loaded, later orchestrator steps
never unset it. -/
def WPres (w w1 : WState) : Prop :=
  ∀ n, (w n).loaded = some true → (w1 n).loaded = some true

/-- Two independent targets: p's artifact is pulled successfully, q's
pull fails with a tolerated not-found error so q is built. -/
def c8Cfg : PrefabConfig :=
  { targets := [
      ("p", { dockerfile := "Dockerfile.p", depends_on := [], watch_files := [] }),
      ("q", { dockerfile := "Dockerfile.q", depends_on := [], watch_files := [] })] }

/-- Engine behaviour for the push scenario. -/
def c8Env : EnvMap := fun n =>
  if n = "p" then { present := false }
  else { present := false, pullError := some (.imageNotFoundError "nf") }

lemma lookupA_mem {α : Type} {l : List (String × α)} {k : String} {v : α}
    (h : lookupA l k = some v) : (k, v) ∈ l := by
  induction l with
  | nil => simp [lookupA] at h
  | cons p rest ih =>
    obtain ⟨pk, pv⟩ := p
    simp only [lookupA] at h
    split at h
    · next heq => cases h; subst heq; exact List.mem_cons_self _ _
    · exact List.mem_cons_of_mem _ (ih h)

lemma getTarget_eq_ok {cfg : PrefabConfig} {t : String} {tc : TargetConfig} :
    getTarget cfg t = .ok tc ↔ lookupA cfg.targets t = some tc := by
  unfold getTarget
  cases lookupA cfg.targets t <;> simp

lemma getTarget_err {cfg : PrefabConfig} {t : String} {e : PrefabError}
    (h : getTarget cfg t = .error e) : ∃ m, e = .targetNotFoundError m := by
  unfold getTarget at h
  cases hl : lookupA cfg.targets t with
  | none => rw [hl] at h; cases h; exact ⟨_, rfl⟩
  | some tc => rw [hl] at h; cases h

lemma isTarget_of_getTarget {cfg : PrefabConfig} {t : String} {tc : TargetConfig}
    (h : getTarget cfg t = .ok tc) : isTarget cfg t := by
  unfold isTarget
  rw [getTarget_eq_ok.mp h]
  rfl

lemma getTarget_of_isTarget {cfg : PrefabConfig} {t : String} (h : isTarget cfg t) :
    ∃ tc, getTarget cfg t = .ok tc := by
  unfold isTarget at h
  cases hl : lookupA cfg.targets t with
  | none => rw [hl] at h; simp at h
  | some tc => exact ⟨tc, getTarget_eq_ok.mpr hl⟩

lemma depsOf_of_lookup {cfg : PrefabConfig} {t : String} {tc : TargetConfig}
    (h : lookupA cfg.targets t = some tc) : depsOf cfg t = tc.depends_on := by
  unfold depsOf
  rw [h]

lemma depEdge_mem_edgePairs {cfg : PrefabConfig} {a b : String} (h : depEdge cfg a b) :
    (a, b) ∈ edgePairs cfg := by
  unfold depEdge depsOf at h
  cases hl : lookupA cfg.targets a with
  | none => rw [hl] at h; simp at h
  | some tc =>
    rw [hl] at h
    exact List.mem_flatMap.mpr ⟨(a, tc), lookupA_mem hl, List.mem_map.mpr ⟨b, h, rfl⟩⟩

lemma closed_dep {cfg : PrefabConfig} (hc : Closed cfg) {a b : String} (h : depEdge cfg a b) :
    isTarget cfg b := by
  unfold depEdge depsOf at h
  cases hl : lookupA cfg.targets a with
  | none => rw [hl] at h; simp at h
  | some tc =>
    rw [hl] at h
    exact hc (a, tc) (lookupA_mem hl) b h

lemma idxOf_lt_length {l : List String} {a : String} (h : a ∈ l) : idxOf l a < l.length := by
  induction l with
  | nil => simp at h
  | cons x rest ih =>
    by_cases hx : x = a
    · simp [idxOf, hx]
    · have : a ∈ rest := by
        rcases List.mem_cons.mp h with h1 | h1
        · exact absurd h1.symm hx
        · exact h1
      simp only [idxOf, if_neg hx, List.length_cons]
      exact Nat.succ_lt_succ (ih this)

lemma idxOf_append_left {l l' : List String} {a : String} (h : a ∈ l) :
    idxOf (l ++ l') a = idxOf l a := by
  induction l with
  | nil => simp at h
  | cons x rest ih =>
    by_cases hx : x = a
    · simp [idxOf, hx]
    · have : a ∈ rest := by
        rcases List.mem_cons.mp h with h1 | h1
        · exact absurd h1.symm hx
        · exact h1
      simp [idxOf, hx, ih this]

lemma idxOf_append_right {l l' : List String} {a : String} (h : a ∉ l) :
    idxOf (l ++ l') a = l.length + idxOf l' a := by
  induction l with
  | nil => simp
  | cons x rest ih =>
    have hx : x ≠ a := fun hc => h (hc ▸ List.mem_cons_self x rest)
    have hr : a ∉ rest := fun hc => h (List.mem_cons_of_mem _ hc)
    simp only [List.cons_append, idxOf, if_neg hx, List.length_cons]
    show idxOf (rest ++ l') a + 1 = rest.length + 1 + idxOf l' a
    rw [ih hr]
    omega

lemma goodList_nil (cfg : PrefabConfig) : GoodList cfg [] := by
  exact ⟨List.nodup_nil, by intro x hx; simp at hx⟩

lemma chainTo_append {v : List (String × String)} {t d : String} (h : ChainTo v t) :
    ChainTo (v ++ [(t, d)]) d := by
  induction v with
  | nil => simp [ChainTo]
  | cons e rest ih =>
    obtain ⟨a, b⟩ := e
    cases rest with
    | nil => simp [ChainTo] at h ⊢; exact h
    | cons e2 rest2 =>
      obtain ⟨c, c2⟩ := e2
      simp only [ChainTo] at h
      exact ⟨h.1, ih h.2⟩

lemma chainTo_reaches {cfg : PrefabConfig} :
    ∀ (v : List (String × String)) (a b t : String), ChainTo ((a, b) :: v) t →
      (∀ e ∈ (a, b) :: v, depEdge cfg e.1 e.2) → Relation.ReflTransGen (depEdge cfg) b t := by
  intro v
  induction v with
  | nil =>
    intro a b t hch _
    simp only [ChainTo] at hch
    exact hch ▸ Relation.ReflTransGen.refl
  | cons e2 rest ih =>
    intro a b t hch hall
    obtain ⟨c, c2⟩ := e2
    simp only [ChainTo] at hch
    obtain ⟨hbc, hch2⟩ := hch
    have hedge : depEdge cfg c c2 := hall (c, c2) (by simp)
    have htail : Relation.ReflTransGen (depEdge cfg) c2 t :=
      ih c c2 t hch2 (fun e he => hall e (List.mem_cons_of_mem _ he))
    exact hbc ▸ Relation.ReflTransGen.head hedge htail

/-- A repeated edge on the active path closes a genuine dependency
cycle through the current target. -/
lemma cycle_of_repeated_edge {cfg : PrefabConfig} :
    ∀ (v : List (String × String)) (t d : String), (t, d) ∈ v → ChainTo v t →
      (∀ e ∈ v, depEdge cfg e.1 e.2) → OnCycle cfg t := by
  intro v
  induction v with
  | nil => intro t d hm; simp at hm
  | cons e rest ih =>
    intro t d hm hch hall
    obtain ⟨a, b⟩ := e
    rcases List.mem_cons.mp hm with heq | hm2
    · cases heq
      have hedge : depEdge cfg t d := hall (t, d) (by simp)
      have hreach : Relation.ReflTransGen (depEdge cfg) d t := chainTo_reaches rest t d t hch hall
      exact Relation.TransGen.head' hedge hreach
    · cases rest with
      | nil => simp at hm2
      | cons e2 rest2 =>
        obtain ⟨c, c2⟩ := e2
        simp only [ChainTo] at hch
        exact ih t d hm2 hch.2 (fun e he => hall e (List.mem_cons_of_mem _ he))

/-- Along the list order of a `GoodList`, a transitive dependency lies
strictly earlier; hence no member can lie on a cycle. -/
lemma goodList_rank {cfg : PrefabConfig} {l : List String} (hg : GoodList cfg l) {a b : String}
    (h : Relation.TransGen (depEdge cfg) a b) (ha : a ∈ l) :
    b ∈ l ∧ idxOf l b < idxOf l a := by
  induction h with
  | single he => exact (hg.2 a ha).2 _ he
  | tail _ he ih =>
    obtain ⟨hc, hlt⟩ := ih
    obtain ⟨hb, hlt2⟩ := (hg.2 _ hc).2 _ he
    exact ⟨hb, lt_trans hlt2 hlt⟩

lemma goodList_not_onCycle {cfg : PrefabConfig} {l : List String} (hg : GoodList cfg l)
    {t : String} (ht : t ∈ l) : ¬ OnCycle cfg t := by
  intro hcy
  exact lt_irrefl _ (goodList_rank hg hcy ht).2

/-- Members of a `GoodList` are closed under reachability. -/
lemma goodList_reaches_mem {cfg : PrefabConfig} {l : List String} (hg : GoodList cfg l)
    {t x : String} (ht : t ∈ l) (h : Reaches cfg t x) : x ∈ l := by
  induction h with
  | refl => exact ht
  | tail _ he ih => exact ((hg.2 _ ih).2 _ he).1

lemma depsGood {cfg : PrefabConfig} (f) (hf : StepGood cfg f) (target : String) :
    ∀ (ds images : List String) (vectors : List (String × String)) (l : List String),
      resolveImageDeps f target ds images vectors = .ok l → GoodList cfg images →
      GoodList cfg l ∧ (∀ d ∈ ds, d ∈ l) ∧ ∃ r, l = images ++ r := by
  intro ds
  induction ds with
  | nil =>
    intro images vectors l h hg
    simp only [resolveImageDeps] at h
    cases h
    exact ⟨hg, by simp, [], by simp⟩
  | cons d ds ih =>
    intro images vectors l h hg
    simp only [resolveImageDeps] at h
    split at h
    · simp at h
    · cases hc : f d images (vectors ++ [(target, d)]) with
      | error e => rw [hc] at h; simp at h
      | ok images1 =>
        rw [hc] at h
        obtain ⟨hg1, hd1, r1, hpre1⟩ := hf d images (vectors ++ [(target, d)]) images1 hc hg
        obtain ⟨hgl, hds, r2, hpre2⟩ := ih images1 vectors l h hg1
        refine ⟨hgl, ?_, r1 ++ r2, ?_⟩
        · intro d' hd'
          rcases List.mem_cons.mp hd' with rfl | hmem
          · rw [hpre2]; exact List.mem_append_left _ hd1
          · exact hds d' hmem
        · rw [hpre2, hpre1, List.append_assoc]

lemma auxGood {cfg : PrefabConfig} : ∀ fuel, StepGood cfg (resolveImagesAux cfg fuel) := by
  intro fuel
  induction fuel with
  | zero => intro t images vectors l h _; simp [resolveImagesAux] at h
  | succ fuel ih =>
    intro t images vectors l h hg
    simp only [resolveImagesAux] at h
    cases hgt : getTarget cfg t with
    | error e => rw [hgt] at h; simp at h
    | ok tc =>
      rw [hgt] at h
      dsimp only at h
      cases hds : resolveImageDeps (resolveImagesAux cfg fuel) t tc.depends_on images vectors with
      | error e => rw [hds] at h; simp at h
      | ok images1 =>
        rw [hds] at h
        dsimp only at h
        obtain ⟨hg1, hmemds, r1, hpre1⟩ :=
          depsGood _ ih t tc.depends_on images vectors images1 hds hg
        have hlk : lookupA cfg.targets t = some tc := getTarget_eq_ok.mp hgt
        by_cases hmem : t ∈ images1
        · rw [if_pos hmem] at h
          cases h
          exact ⟨hg1, hmem, r1, hpre1⟩
        · rw [if_neg hmem] at h
          cases h
          refine ⟨⟨?_, ?_⟩, List.mem_append_right _ (by simp), r1 ++ [t], by rw [hpre1, List.append_assoc]⟩
          · simp [List.nodup_append, hg1.1, hmem]
          · intro x hx
            rcases List.mem_append.mp hx with hx1 | hx2
            · obtain ⟨hxt, hxd⟩ := hg1.2 x hx1
              refine ⟨hxt, fun d hd => ?_⟩
              obtain ⟨hdm, hdi⟩ := hxd d hd
              exact ⟨List.mem_append_left _ hdm, by
                rw [idxOf_append_left hdm, idxOf_append_left hx1]; exact hdi⟩
            · have hxt : x = t := by simpa using hx2
              subst hxt
              refine ⟨isTarget_of_getTarget hgt, fun d hd => ?_⟩
              have hdm : d ∈ images1 := by
                apply hmemds
                unfold depEdge at hd
                rw [depsOf_of_lookup hlk] at hd
                exact hd
              refine ⟨List.mem_append_left _ hdm, ?_⟩
              rw [idxOf_append_left hdm, idxOf_append_right hmem]
              simp only [idxOf, if_pos rfl]
              have := idxOf_lt_length hdm
              omega

lemma depsReach {cfg : PrefabConfig} (f) (hf : StepReach cfg f) (target : String) :
    ∀ (ds images : List String) (vectors : List (String × String)) (l : List String),
      resolveImageDeps f target ds images vectors = .ok l →
      ∀ x ∈ l, x ∈ images ∨ ∃ d ∈ ds, Reaches cfg d x := by
  intro ds
  induction ds with
  | nil =>
    intro images vectors l h x hx
    simp only [resolveImageDeps] at h
    cases h
    exact Or.inl hx
  | cons d ds ih =>
    intro images vectors l h x hx
    simp only [resolveImageDeps] at h
    split at h
    · simp at h
    · cases hc : f d images (vectors ++ [(target, d)]) with
      | error e => rw [hc] at h; simp at h
      | ok images1 =>
        rw [hc] at h
        rcases ih images1 vectors l h x hx with h1 | ⟨d', hd', hr⟩
        · rcases hf d images (vectors ++ [(target, d)]) images1 hc x h1 with h2 | h2
          · exact Or.inl h2
          · exact Or.inr ⟨d, List.mem_cons_self _ _, h2⟩
        · exact Or.inr ⟨d', List.mem_cons_of_mem _ hd', hr⟩

lemma auxReach {cfg : PrefabConfig} : ∀ fuel, StepReach cfg (resolveImagesAux cfg fuel) := by
  intro fuel
  induction fuel with
  | zero => intro t images vectors l h; simp [resolveImagesAux] at h
  | succ fuel ih =>
    intro t images vectors l h x hx
    simp only [resolveImagesAux] at h
    cases hgt : getTarget cfg t with
    | error e => rw [hgt] at h; simp at h
    | ok tc =>
      rw [hgt] at h
      dsimp only at h
      cases hds : resolveImageDeps (resolveImagesAux cfg fuel) t tc.depends_on images vectors with
      | error e => rw [hds] at h; simp at h
      | ok images1 =>
        rw [hds] at h
        dsimp only at h
        have hlk : lookupA cfg.targets t = some tc := getTarget_eq_ok.mp hgt
        have hfrom : ∀ y ∈ images1, y ∈ images ∨ Reaches cfg t y := by
          intro y hy
          rcases depsReach _ ih t tc.depends_on images vectors images1 hds y hy with h1 | ⟨d, hd, hr⟩
          · exact Or.inl h1
          · refine Or.inr (Relation.ReflTransGen.head ?_ hr)
            unfold depEdge
            rw [depsOf_of_lookup hlk]
            exact hd
        by_cases hmem : t ∈ images1
        · rw [if_pos hmem] at h
          cases h
          exact hfrom x hx
        · rw [if_neg hmem] at h
          cases h
          rcases List.mem_append.mp hx with hx1 | hx2
          · exact hfrom x hx1
          · have : x = t := by simpa using hx2
            subst this
            exact Or.inr Relation.ReflTransGen.refl

lemma depsErr (f)
    (hf : ∀ t images vectors e, f t images vectors = .error e → ResolveErr e) (target : String) :
    ∀ (ds images : List String) (vectors : List (String × String)) (e : PrefabError),
      resolveImageDeps f target ds images vectors = .error e → ResolveErr e := by
  intro ds
  induction ds with
  | nil => intro images vectors e h; simp [resolveImageDeps] at h
  | cons d ds ih =>
    intro images vectors e h
    simp only [resolveImageDeps] at h
    split at h
    · cases h
      exact Or.inr (Or.inl ⟨_, rfl⟩)
    · cases hc : f d images (vectors ++ [(target, d)]) with
      | error e2 =>
        rw [hc] at h
        cases h
        exact hf d images (vectors ++ [(target, d)]) _ hc
      | ok images1 =>
        rw [hc] at h
        exact ih images1 vectors e h

lemma auxErr {cfg : PrefabConfig} :
    ∀ fuel t images vectors e, resolveImagesAux cfg fuel t images vectors = .error e →
      ResolveErr e := by
  intro fuel
  induction fuel with
  | zero =>
    intro t images vectors e h
    simp only [resolveImagesAux] at h
    cases h
    exact Or.inr (Or.inr rfl)
  | succ fuel ih =>
    intro t images vectors e h
    simp only [resolveImagesAux] at h
    cases hgt : getTarget cfg t with
    | error e2 =>
      rw [hgt] at h
      cases h
      unfold getTarget at hgt
      cases hl : lookupA cfg.targets t with
      | none => rw [hl] at hgt; cases hgt; exact Or.inl ⟨_, rfl⟩
      | some tc => rw [hl] at hgt; cases hgt
    | ok tc =>
      rw [hgt] at h
      dsimp only at h
      cases hds : resolveImageDeps (resolveImagesAux cfg fuel) t tc.depends_on images vectors with
      | error e2 =>
        rw [hds] at h
        cases h
        exact depsErr _ ih t tc.depends_on images vectors _ hds
      | ok images1 =>
        rw [hds] at h
        dsimp only at h
        split at h <;> cases h

lemma depsNoNF {cfg : PrefabConfig} (f)
    (hf : ∀ t images vectors m, isTarget cfg t →
      f t images vectors ≠ .error (.targetNotFoundError m)) (target : String) :
    ∀ (ds images : List String) (vectors : List (String × String)) (m : String),
      (∀ d ∈ ds, isTarget cfg d) →
      resolveImageDeps f target ds images vectors ≠ .error (.targetNotFoundError m) := by
  intro ds
  induction ds with
  | nil => intro images vectors m _ h; simp [resolveImageDeps] at h
  | cons d ds ih =>
    intro images vectors m hds h
    simp only [resolveImageDeps] at h
    split at h
    · cases h
    · cases hc : f d images (vectors ++ [(target, d)]) with
      | error e2 =>
        rw [hc] at h
        cases h
        exact hf d images (vectors ++ [(target, d)]) m (hds d (List.mem_cons_self _ _)) hc
      | ok images1 =>
        rw [hc] at h
        exact ih images1 vectors m (fun d' hd' => hds d' (List.mem_cons_of_mem _ hd')) h

lemma auxNoNF {cfg : PrefabConfig} (hcl : Closed cfg) :
    ∀ fuel t images vectors m, isTarget cfg t →
      resolveImagesAux cfg fuel t images vectors ≠ .error (.targetNotFoundError m) := by
  intro fuel
  induction fuel with
  | zero => intro t images vectors m _ h; simp [resolveImagesAux] at h
  | succ fuel ih =>
    intro t images vectors m ht h
    simp only [resolveImagesAux] at h
    obtain ⟨tc, hgt⟩ := getTarget_of_isTarget ht
    rw [hgt] at h
    dsimp only at h
    have hlk : lookupA cfg.targets t = some tc := getTarget_eq_ok.mp hgt
    have hds : ∀ d ∈ tc.depends_on, isTarget cfg d := by
      intro d hd
      refine closed_dep hcl (a := t) ?_
      unfold depEdge
      rw [depsOf_of_lookup hlk]
      exact hd
    cases hde : resolveImageDeps (resolveImagesAux cfg fuel) t tc.depends_on images vectors with
    | error e2 =>
      rw [hde] at h
      cases h
      exact depsNoNF _ ih t tc.depends_on images vectors m hds hde
    | ok images1 =>
      rw [hde] at h
      dsimp only at h
      split at h <;> cases h

lemma depsNoFuel {cfg : PrefabConfig} (f) (fuel : Nat)
    (hf : ∀ t images vectors, vectors.Nodup → (∀ v ∈ vectors, v ∈ edgePairs cfg) →
      (edgePairs cfg).length - vectors.length < fuel →
      f t images vectors ≠ .error .fuelExhausted) (target : String) :
    ∀ (ds images : List String) (vectors : List (String × String)),
      vectors.Nodup → (∀ v ∈ vectors, v ∈ edgePairs cfg) →
      (edgePairs cfg).length - vectors.length ≤ fuel →
      (∀ d ∈ ds, depEdge cfg target d) →
      resolveImageDeps f target ds images vectors ≠ .error .fuelExhausted := by
  intro ds
  induction ds with
  | nil => intro images vectors _ _ _ _ h; simp [resolveImageDeps] at h
  | cons d ds ih =>
    intro images vectors hnd hsub hcap hds h
    simp only [resolveImageDeps] at h
    split at h
    · cases h
    · next hnotmem =>
      have hedge : (target, d) ∈ edgePairs cfg :=
        depEdge_mem_edgePairs (hds d (List.mem_cons_self _ _))
      have hnd2 : (vectors ++ [(target, d)]).Nodup := by
        simp [List.nodup_append, hnd, hnotmem]
      have hsub2 : ∀ v ∈ vectors ++ [(target, d)], v ∈ edgePairs cfg := by
        intro v hv
        rcases List.mem_append.mp hv with h1 | h1
        · exact hsub v h1
        · have : v = (target, d) := by simpa using h1
          exact this ▸ hedge
      have hlen : vectors.length + 1 ≤ (edgePairs cfg).length := by
        have hsp : List.Subperm (vectors ++ [(target, d)]) (edgePairs cfg) :=
          List.Nodup.subperm hnd2 (fun v hv => hsub2 v hv)
        have := hsp.length_le
        simpa using this
      have hcap2 : (edgePairs cfg).length - (vectors ++ [(target, d)]).length < fuel := by
        simp only [List.length_append, List.length_cons, List.length_nil]
        omega
      cases hc : f d images (vectors ++ [(target, d)]) with
      | error e2 =>
        rw [hc] at h
        cases h
        exact hf d images (vectors ++ [(target, d)]) hnd2 hsub2 hcap2 hc
      | ok images1 =>
        rw [hc] at h
        exact ih images1 vectors hnd hsub hcap (fun d' hd' => hds d' (List.mem_cons_of_mem _ hd')) h

lemma auxNoFuel {cfg : PrefabConfig} :
    ∀ fuel t images vectors, vectors.Nodup → (∀ v ∈ vectors, v ∈ edgePairs cfg) →
      (edgePairs cfg).length - vectors.length < fuel →
      resolveImagesAux cfg fuel t images vectors ≠ .error .fuelExhausted := by
  intro fuel
  induction fuel with
  | zero => intro t images vectors _ _ hcap; omega
  | succ fuel ih =>
    intro t images vectors hnd hsub hcap h
    simp only [resolveImagesAux] at h
    cases hgt : getTarget cfg t with
    | error e2 =>
      rw [hgt] at h
      cases h
      obtain ⟨m2, hm⟩ := getTarget_err hgt
      cases hm
    | ok tc =>
      rw [hgt] at h
      dsimp only at h
      have hlk : lookupA cfg.targets t = some tc := getTarget_eq_ok.mp hgt
      have hds : ∀ d ∈ tc.depends_on, depEdge cfg t d := by
        intro d hd
        unfold depEdge
        rw [depsOf_of_lookup hlk]
        exact hd
      cases hde : resolveImageDeps (resolveImagesAux cfg fuel) t tc.depends_on images vectors with
      | error e2 =>
        rw [hde] at h
        cases h
        exact depsNoFuel _ fuel ih t tc.depends_on images vectors hnd hsub
          (Nat.le_of_lt_succ hcap) hds hde
      | ok images1 =>
        rw [hde] at h
        dsimp only at h
        split at h <;> cases h

lemma depsNoCyc {cfg : PrefabConfig} (ha : Acyclic cfg) (f)
    (hf : ∀ t images vectors m, ChainTo vectors t → (∀ v ∈ vectors, depEdge cfg v.1 v.2) →
      f t images vectors ≠ .error (.targetCyclicError m)) (target : String) :
    ∀ (ds images : List String) (vectors : List (String × String)) (m : String),
      ChainTo vectors target → (∀ v ∈ vectors, depEdge cfg v.1 v.2) →
      (∀ d ∈ ds, depEdge cfg target d) →
      resolveImageDeps f target ds images vectors ≠ .error (.targetCyclicError m) := by
  intro ds
  induction ds with
  | nil => intro images vectors m _ _ _ h; simp [resolveImageDeps] at h
  | cons d ds ih =>
    intro images vectors m hch hall hds h
    simp only [resolveImageDeps] at h
    split at h
    · next hmem =>
      exact ha target (cycle_of_repeated_edge vectors target d hmem hch hall)
    · have hall2 : ∀ v ∈ vectors ++ [(target, d)], depEdge cfg v.1 v.2 := by
        intro v hv
        rcases List.mem_append.mp hv with h1 | h1
        · exact hall v h1
        · have : v = (target, d) := by simpa using h1
          exact this ▸ hds d (List.mem_cons_self _ _)
      cases hc : f d images (vectors ++ [(target, d)]) with
      | error e2 =>
        rw [hc] at h
        cases h
        exact hf d images (vectors ++ [(target, d)]) m (chainTo_append hch) hall2 hc
      | ok images1 =>
        rw [hc] at h
        exact ih images1 vectors m hch hall (fun d' hd' => hds d' (List.mem_cons_of_mem _ hd')) h

lemma auxNoCyc {cfg : PrefabConfig} (ha : Acyclic cfg) :
    ∀ fuel t images vectors m, ChainTo vectors t → (∀ v ∈ vectors, depEdge cfg v.1 v.2) →
      resolveImagesAux cfg fuel t images vectors ≠ .error (.targetCyclicError m) := by
  intro fuel
  induction fuel with
  | zero => intro t images vectors m _ _ h; simp [resolveImagesAux] at h
  | succ fuel ih =>
    intro t images vectors m hch hall h
    simp only [resolveImagesAux] at h
    cases hgt : getTarget cfg t with
    | error e2 =>
      rw [hgt] at h
      cases h
      obtain ⟨m2, hm⟩ := getTarget_err hgt
      cases hm
    | ok tc =>
      rw [hgt] at h
      dsimp only at h
      have hlk : lookupA cfg.targets t = some tc := getTarget_eq_ok.mp hgt
      have hds : ∀ d ∈ tc.depends_on, depEdge cfg t d := by
        intro d hd
        unfold depEdge
        rw [depsOf_of_lookup hlk]
        exact hd
      cases hde : resolveImageDeps (resolveImagesAux cfg fuel) t tc.depends_on images vectors with
      | error e2 =>
        rw [hde] at h
        cases h
        exact depsNoCyc ha _ ih t tc.depends_on images vectors m hch hall hds hde
      | ok images1 =>
        rw [hde] at h
        dsimp only at h
        split at h <;> cases h

/-- Full success specification of `resolve_target_images` on an acyclic
closed configuration. -/
lemma resolve_acyclic_spec {cfg : PrefabConfig} {t : String}
    (hcl : Closed cfg) (ht : isTarget cfg t) (ha : Acyclic cfg) :
    ∃ l, resolveTargetImages cfg t = .ok l ∧ l.Nodup ∧
      (∀ x, x ∈ l ↔ Reaches cfg t x) ∧
      (∀ x d, x ∈ l → depEdge cfg x d → d ∈ l ∧ idxOf l d < idxOf l x) := by
  cases hr : resolveTargetImages cfg t with
  | error e =>
    exfalso
    unfold resolveTargetImages at hr
    rcases auxErr _ t [] [] e hr with ⟨m, rfl⟩ | ⟨m, rfl⟩ | rfl
    · exact auxNoNF hcl _ t [] [] m ht hr
    · exact auxNoCyc ha _ t [] [] m trivial (by simp) hr
    · exact auxNoFuel _ t [] [] List.nodup_nil (by simp) (by omega) hr
  | ok l =>
    unfold resolveTargetImages at hr
    obtain ⟨hg, htl, _⟩ := auxGood _ t [] [] l hr (goodList_nil cfg)
    refine ⟨l, rfl, hg.1, ?_, ?_⟩
    · intro x
      constructor
      · intro hx
        rcases auxReach _ t [] [] l hr x hx with h1 | h1
        · simp at h1
        · exact h1
      · intro hx
        exact goodList_reaches_mem hg htl hx
    · intro x d hx hd
      exact (hg.2 x hx).2 d hd

/-- On a closed configuration, resolution of a target lying on a cycle
always fails with `TargetCyclicError`. -/
lemma resolve_cyclic_spec {cfg : PrefabConfig} {t : String}
    (hcl : Closed cfg) (ht : isTarget cfg t) (hcy : OnCycle cfg t) :
    ∃ m, resolveTargetImages cfg t = .error (.targetCyclicError m) := by
  cases hr : resolveTargetImages cfg t with
  | ok l =>
    exfalso
    unfold resolveTargetImages at hr
    obtain ⟨hg, htl, _⟩ := auxGood _ t [] [] l hr (goodList_nil cfg)
    exact goodList_not_onCycle hg htl hcy
  | error e =>
    unfold resolveTargetImages at hr
    rcases auxErr _ t [] [] e hr with ⟨m, rfl⟩ | ⟨m, rfl⟩ | rfl
    · exact absurd hr (auxNoNF hcl _ t [] [] m ht)
    · exact ⟨m, rfl⟩
    · exact absurd hr (auxNoFuel _ t [] [] List.nodup_nil (by simp) (by omega))

/-- A rank function strictly decreasing along every configured edge
certifies acyclicity (used to discharge `Acyclic` on concrete
configurations). -/
lemma acyclic_of_rank {cfg : PrefabConfig} (rank : String → Nat)
    (h : ∀ p ∈ edgePairs cfg, rank p.2 < rank p.1) : Acyclic cfg := by
  have hstep : ∀ a b, depEdge cfg a b → rank b < rank a := fun a b hab =>
    h (a, b) (depEdge_mem_edgePairs hab)
  have htg : ∀ a b, Relation.TransGen (depEdge cfg) a b → rank b < rank a := by
    intro a b htg
    induction htg with
    | single he => exact hstep _ _ he
    | tail _ he ih => exact lt_trans (hstep _ _ he) ih
  intro t hcy
  exact lt_irrefl _ (htg t t hcy)

/-- C1: for every acyclic dependency graph, `resolve_target_images`
returns a list containing each transitively reachable target exactly
once (no duplicates, membership is exactly reachability), with every
dependency placed strictly before every target that depends on it; and
dependencies are visited in literal declaration order, so the diamond
a→[b,c], b→d, c→d resolves to [d, b, c, a]. -/
theorem C1_resolve_topological_order :
    (∀ (cfg : PrefabConfig) (t : String), Closed cfg → isTarget cfg t → Acyclic cfg →
      ∃ l, resolveTargetImages cfg t = .ok l ∧ l.Nodup ∧
        (∀ x, x ∈ l ↔ Reaches cfg t x) ∧
        (∀ x d, x ∈ l → depEdge cfg x d → d ∈ l ∧ idxOf l d < idxOf l x)) ∧
    resolveTargetImages diamondCfg "a" = .ok ["d", "b", "c", "a"] :=
  ⟨fun _ _ hcl ht ha => resolve_acyclic_spec hcl ht ha, rfl⟩

/-- Witness: the general statement of C1 applied to the concrete diamond
graph at target a. -/
theorem C1_resolve_topological_order_witness :
    ∃ l, resolveTargetImages diamondCfg "a" = .ok l ∧ l.Nodup ∧
      (∀ x, x ∈ l ↔ Reaches diamondCfg "a" x) ∧
      (∀ x d, x ∈ l → depEdge diamondCfg x d → d ∈ l ∧ idxOf l d < idxOf l x) :=
  C1_resolve_topological_order.1 diamondCfg "a" (by decide) (by decide)
    (acyclic_of_rank diamondRank (by decide))

/-- C2: on a closed registry, resolving any target lying on a dependency
cycle (self-loops included) fails with `TargetCyclicError`; and the
repeated-edge detection never falsely flags the acyclic diamond graph. -/
theorem C2_cycle_detection :
    (∀ (cfg : PrefabConfig) (t : String), Closed cfg → isTarget cfg t → OnCycle cfg t →
      ∃ m, resolveTargetImages cfg t = .error (.targetCyclicError m)) ∧
    (∃ l, resolveTargetImages diamondCfg "a" = .ok l) :=
  ⟨fun _ _ hcl ht hcy => resolve_cyclic_spec hcl ht hcy, ⟨["d", "b", "c", "a"], rfl⟩⟩

/-- Witness: the general statement of C2 applied to the two-target cycle
a→b→a. -/
theorem C2_cycle_detection_witness :
    ∃ m, resolveTargetImages loopCfg "a" = .error (.targetCyclicError m) := by
  have h1 : depEdge loopCfg "a" "b" := by decide
  have h2 : depEdge loopCfg "b" "a" := by decide
  exact C2_cycle_detection.1 loopCfg "a" (by decide) (by decide)
    (Relation.TransGen.head h1 (Relation.TransGen.single h2))

lemma lookupA_append_some {α : Type} {l l2 : List (String × α)} {k : String} {v : α}
    (h : lookupA l k = some v) : lookupA (l ++ l2) k = some v := by
  induction l with
  | nil => simp [lookupA] at h
  | cons p rest ih =>
    obtain ⟨pk, pv⟩ := p
    simp only [lookupA] at h ⊢
    split at h
    · next heq => rw [if_pos heq]; exact h
    · next hne => rw [if_neg hne]; exact ih h

lemma lookupA_append_none {α : Type} {l l2 : List (String × α)} {k : String}
    (h : lookupA l k = none) : lookupA (l ++ l2) k = lookupA l2 k := by
  induction l with
  | nil => simp [lookupA]
  | cons p rest ih =>
    obtain ⟨pk, pv⟩ := p
    simp only [lookupA] at h ⊢
    split at h
    · cases h
    · next hne => rw [if_neg hne]; exact ih h

lemma mapM_fileDigest (env : FactoryEnv) (cfg : PrefabConfig)
    (halg : cfg.hash_algorithm ∈ env.algorithms) :
    ∀ files : List String,
      files.mapM (getFileDigest env cfg) =
        .ok (files.map (fun p => env.hashFn (env.contents p))) := by
  intro files
  induction files with
  | nil => rfl
  | cons p rest ih =>
    have hone : getFileDigest env cfg p = .ok (env.hashFn (env.contents p)) := by
      simp [getFileDigest, getHasher, if_pos halg]
    rw [List.mapM_cons, hone, ih]
    rfl

lemma mapM_depLookup (m : List (String × String)) :
    ∀ ds : List String, (∀ d ∈ ds, (lookupA m d).isSome = true) →
      ds.mapM (fun d =>
        match lookupA m d with
        | some dd => Except.ok dd
        | none => Except.error (PrefabError.keyError d)) =
        .ok (ds.map (fun d => (lookupA m d).getD "")) := by
  intro ds
  induction ds with
  | nil => intro _; rfl
  | cons d rest ih =>
    intro hall
    cases hl : lookupA m d with
    | none =>
      have := hall d (List.mem_cons_self _ _)
      rw [hl] at this
      simp at this
    | some dd =>
      rw [List.mapM_cons]
      have hrest := ih (fun d2 hd2 => hall d2 (List.mem_cons_of_mem _ hd2))
      rw [hl, hrest]
      simp [hl]
      rfl

lemma getTargetDigest_tags {env : FactoryEnv} {cfg : PrefabConfig} {st : FactoryState}
    {t d : String} {st1 : FactoryState} {tr : List String}
    (h : getTargetDigest env cfg st t = .ok (d, st1, tr)) : st1.tags = st.tags := by
  unfold getTargetDigest at h
  split at h
  · cases h; rfl
  · split at h
    · cases h
    · cases h; rfl

/-- After a successful `get_target_tag`, the tag is memoized. -/
lemma getTargetTag_lookup {env : FactoryEnv} {cfg : PrefabConfig} {st : FactoryState}
    {t tg : String} {st1 : FactoryState} {tr : List String}
    (h : getTargetTag env cfg st t = .ok (tg, st1, tr)) : lookupA st1.tags t = some tg := by
  unfold getTargetTag at h
  split at h
  · next heq => cases h; exact heq
  · next hnone =>
    cases hd : getTargetDigest env cfg st t with
    | error e => rw [hd] at h; cases h
    | ok r =>
      obtain ⟨dv, std, trd⟩ := r
      rw [hd] at h
      cases h
      have htags : std.tags = st.tags := getTargetDigest_tags hd
      show lookupA (std.tags ++ [(t, dv.take cfg.short_digest_size)]) t = _
      rw [htags, lookupA_append_none hnone]
      simp [lookupA]

/-- `get_target_tag` only appends to the tag memo: earlier entries keep
their values. -/
lemma getTargetTag_preserves {env : FactoryEnv} {cfg : PrefabConfig} {st : FactoryState}
    {t tg : String} {st1 : FactoryState} {tr : List String}
    (h : getTargetTag env cfg st t = .ok (tg, st1, tr)) :
    ∀ k v, lookupA st.tags k = some v → lookupA st1.tags k = some v := by
  intro k v hkv
  unfold getTargetTag at h
  split at h
  · cases h; exact hkv
  · cases hd : getTargetDigest env cfg st t with
    | error e => rw [hd] at h; cases h
    | ok r =>
      obtain ⟨dv, std, trd⟩ := r
      rw [hd] at h
      cases h
      have htags : std.tags = st.tags := getTargetDigest_tags hd
      show lookupA (std.tags ++ [(t, dv.take cfg.short_digest_size)]) k = some v
      rw [htags]
      exact lookupA_append_some hkv

lemma buildargsLoop_preserves {env : FactoryEnv} {cfg : PrefabConfig} :
    ∀ (ds : List String) (acc : List (String × String)) (st : FactoryState)
      (ba : List (String × String)) (st1 : FactoryState),
      getTargetBuildargsLoop env cfg ds acc st = .ok (ba, st1) →
      ∀ k v, lookupA st.tags k = some v → lookupA st1.tags k = some v := by
  intro ds
  induction ds with
  | nil =>
    intro acc st ba st1 h k v hkv
    simp only [getTargetBuildargsLoop] at h
    cases h
    exact hkv
  | cons d rest ih =>
    intro acc st ba st1 h k v hkv
    simp only [getTargetBuildargsLoop] at h
    cases ht : getTargetTag env cfg st d with
    | error e => rw [ht] at h; cases h
    | ok r =>
      obtain ⟨tg, st2, tr⟩ := r
      rw [ht] at h
      dsimp only at h
      exact ih _ st2 ba st1 h k v (getTargetTag_preserves ht k v hkv)

lemma upsert_fresh {l : List (String × String)} {k v : String}
    (h : k ∉ l.map Prod.fst) : upsert l k v = l ++ [(k, v)] := by
  induction l with
  | nil => simp [upsert]
  | cons p rest ih =>
    obtain ⟨pk, pv⟩ := p
    have hne : pk ≠ k := by
      intro hc
      exact h (by simp [hc])
    have hr : k ∉ rest.map Prod.fst := by
      intro hc
      exact h (by simp [hc])
    simp [upsert, hne, ih hr]

lemma buildargsLoop_spec {env : FactoryEnv} {cfg : PrefabConfig} :
    ∀ (ds : List String) (acc : List (String × String)) (st : FactoryState)
      (ba : List (String × String)) (st1 : FactoryState),
      getTargetBuildargsLoop env cfg ds acc st = .ok (ba, st1) →
      (∀ d ∈ ds, buildargKey cfg d ∉ acc.map Prod.fst) →
      (ds.map (buildargKey cfg)).Nodup →
      ba = acc ++ ds.map (fun d =>
        (buildargKey cfg d, env.repo ++ ":" ++ (lookupA st1.tags d).getD "")) := by
  intro ds
  induction ds with
  | nil =>
    intro acc st ba st1 h _ _
    simp only [getTargetBuildargsLoop] at h
    cases h
    simp
  | cons d rest ih =>
    intro acc st ba st1 h hfresh hnd
    simp only [getTargetBuildargsLoop] at h
    cases ht : getTargetTag env cfg st d with
    | error e => rw [ht] at h; cases h
    | ok r =>
      obtain ⟨tg, st2, tr⟩ := r
      rw [ht] at h
      dsimp only at h
      have hup : upsert acc (buildargKey cfg d) (env.repo ++ ":" ++ tg) =
          acc ++ [(buildargKey cfg d, env.repo ++ ":" ++ tg)] :=
        upsert_fresh (hfresh d (List.mem_cons_self _ _))
      rw [hup] at h
      have hnd2 : (rest.map (buildargKey cfg)).Nodup := (List.nodup_cons.mp hnd).2
      have hknotin : buildargKey cfg d ∉ rest.map (buildargKey cfg) :=
        (List.nodup_cons.mp hnd).1
      have hfresh2 : ∀ d2 ∈ rest,
          buildargKey cfg d2 ∉ (acc ++ [(buildargKey cfg d, env.repo ++ ":" ++ tg)]).map Prod.fst := by
        intro d2 hd2 hc
        simp only [List.map_append, List.mem_append] at hc
        rcases hc with hc | hc
        · exact hfresh d2 (List.mem_cons_of_mem _ hd2) hc
        · simp at hc
          exact hknotin (hc ▸ List.mem_map_of_mem (buildargKey cfg) hd2)
      have hba := ih _ st2 ba st1 h hfresh2 hnd2
      have htag : lookupA st1.tags d = some tg :=
        buildargsLoop_preserves rest _ st2 ba st1 h d tg (getTargetTag_lookup ht)
      rw [hba]
      simp [htag, List.append_assoc]

lemma exceptBind_err {ε α β : Type} (e : ε) (f : α → Except ε β) :
    (Except.error e >>= f) = Except.error e := rfl

lemma exceptBind_ok {ε α β : Type} (a : α) (f : α → Except ε β) :
    (Except.ok a >>= f) = f a := rfl

lemma mapM_depLookup_ok {m : List (String × String)} :
    ∀ {ds : List String} {out : List String},
      ds.mapM (fun d =>
        match lookupA m d with
        | some dd => Except.ok dd
        | none => Except.error (PrefabError.keyError d)) = .ok out →
      ∀ d ∈ ds, (lookupA m d).isSome = true := by
  intro ds
  induction ds with
  | nil => intro out _ d hd; simp at hd
  | cons d0 rest ih =>
    intro out h d hd
    rw [List.mapM_cons] at h
    cases hl : lookupA m d0 with
    | none => rw [hl] at h; rw [exceptBind_err] at h; cases h
    | some dd =>
      rw [hl] at h
      rw [exceptBind_ok] at h
      cases hm : rest.mapM (fun d =>
          match lookupA m d with
          | some dd => Except.ok dd
          | none => Except.error (PrefabError.keyError d)) with
      | error e => rw [hm] at h; rw [exceptBind_err] at h; cases h
      | ok ys =>
        rcases List.mem_cons.mp hd with rfl | hmem
        · rw [hl]; rfl
        · exact ih hm d hmem

/-- The one-shot digest computation, written out as the spec phrases
it, provided every dependency digest is already memoized. -/
lemma digestOnce_eq {env : FactoryEnv} {cfg : PrefabConfig} {st : FactoryState}
    {t : String} {tc : TargetConfig} (halg : cfg.hash_algorithm ∈ env.algorithms)
    (hgt : getTarget cfg t = .ok tc)
    (hdeps : ∀ d ∈ tc.depends_on, (lookupA st.digests d).isSome = true) :
    getTargetDigestOnce env cfg st t = .ok (specDigest env cfg st t tc) := by
  have hh : getHasher env cfg = .ok () := by simp [getHasher, if_pos halg]
  have hmf := mapM_fileDigest env cfg halg
  have hmd := mapM_depLookup st.digests tc.depends_on hdeps
  unfold getTargetDigestOnce
  rw [hh, hgt]
  simp only [getTargetSalt, getTargetWatchFiles, hh, hgt, hmf, hmd, specDigest]

/-- A successful one-shot digest computation requires every dependency
digest to be present in the memo already. -/
lemma digestOnce_deps {env : FactoryEnv} {cfg : PrefabConfig} {st : FactoryState}
    {t dv : String} (h : getTargetDigestOnce env cfg st t = .ok dv) :
    ∀ dep ∈ depsOf cfg t, (lookupA st.digests dep).isSome = true := by
  unfold getTargetDigestOnce at h
  cases h1 : getHasher env cfg with
  | error e => rw [h1] at h; cases h
  | ok u =>
    rw [h1] at h
    dsimp only at h
    cases h2 : getTarget cfg t with
    | error e => rw [h2] at h; cases h
    | ok tc =>
      rw [h2] at h
      dsimp only at h
      cases h3 : getTargetSalt env cfg t with
      | error e => rw [h3] at h; cases h
      | ok salt =>
        rw [h3] at h
        dsimp only at h
        cases h4 : getTargetWatchFiles env cfg t with
        | error e => rw [h4] at h; cases h
        | ok files =>
          rw [h4] at h
          dsimp only at h
          cases h5 : files.mapM (getFileDigest env cfg) with
          | error e => rw [h5] at h; cases h
          | ok fds =>
            rw [h5] at h
            dsimp only at h
            cases h6 : tc.depends_on.mapM (fun d =>
                match lookupA st.digests d with
                | some dd => Except.ok dd
                | none => Except.error (PrefabError.keyError d)) with
            | error e => rw [h6] at h; cases h
            | ok dds =>
              rw [depsOf_of_lookup (getTarget_eq_ok.mp h2)]
              exact mapM_depLookup_ok h6

/-- C3 counterexample: with an empty digest memo, computing the digest
of target a (which depends on b) raises `KeyError` on b instead of
recursively computing b's digest; the same call succeeds once b's
digest is memoized. -/
theorem C3_dependency_digest_keyerror :
    getTargetDigest plainEnv c3Cfg ⟨[], []⟩ "a" = .error (.keyError "b") ∧
    (∃ r, getTargetDigest plainEnv c3Cfg ⟨[], [("b", "x")]⟩ "a" = .ok r) :=
  ⟨rfl, ⟨("adatax", ⟨[], [("b", "x"), ("a", "adatax")]⟩, ["a"]), rfl⟩⟩

/-- C3 (amended): `get_target_digest` is memoized (a memo hit computes
nothing); an actual computation hashes the salt, then the watch-file
digests in order (recipe first), then the dependency digests in
declared order read from the memo, and memoizes the result; a second
call computes nothing; and a successful computation requires every
dependency digest to have been memoized beforehand (a missing one
raises `KeyError` rather than being computed recursively). -/
theorem C3_digest_order_and_memoization :
    ∀ (env : FactoryEnv) (cfg : PrefabConfig) (st : FactoryState) (t : String),
      (∀ d0, lookupA st.digests t = some d0 →
        getTargetDigest env cfg st t = .ok (d0, st, [])) ∧
      (∀ tc, lookupA st.digests t = none → getTarget cfg t = .ok tc →
        cfg.hash_algorithm ∈ env.algorithms →
        (∀ d ∈ tc.depends_on, (lookupA st.digests d).isSome = true) →
        getTargetDigest env cfg st t = .ok (specDigest env cfg st t tc,
          { st with digests := st.digests ++ [(t, specDigest env cfg st t tc)] }, [t])) ∧
      (∀ d st1 tr, getTargetDigest env cfg st t = .ok (d, st1, tr) →
        getTargetDigest env cfg st1 t = .ok (d, st1, [])) ∧
      (∀ d st1 tr, lookupA st.digests t = none →
        getTargetDigest env cfg st t = .ok (d, st1, tr) →
        ∀ dep ∈ depsOf cfg t, (lookupA st.digests dep).isSome = true) := by
  intro env cfg st t
  refine ⟨?_, ?_, ?_, ?_⟩
  · intro d0 h
    simp [getTargetDigest, h]
  · intro tc hnone hgt halg hdeps
    have honce := digestOnce_eq halg hgt hdeps
    simp [getTargetDigest, hnone, honce]
  · intro d st1 tr h
    unfold getTargetDigest at h ⊢
    cases hl : lookupA st.digests t with
    | some d0 =>
      rw [hl] at h
      cases h
      rw [hl]
    | none =>
      rw [hl] at h
      dsimp only at h
      cases ho : getTargetDigestOnce env cfg st t with
      | error e => rw [ho] at h; cases h
      | ok dv =>
        rw [ho] at h
        cases h
        simp only [lookupA_append_none hl]
        simp [lookupA]
  · intro d st1 tr hnone h
    unfold getTargetDigest at h
    rw [hnone] at h
    dsimp only at h
    cases ho : getTargetDigestOnce env cfg st t with
    | error e => rw [ho] at h; cases h
    | ok dv => exact digestOnce_deps ho

/-- Witness: C3 (amended) at a concrete configuration — memo hit, a
computation with the dependency memoized, idempotence and the
memoized-before-dependents requirement. -/
theorem C3_digest_order_and_memoization_witness :
    getTargetDigest plainEnv c3Cfg ⟨[], [("b", "x")]⟩ "b" = .ok ("x", ⟨[], [("b", "x")]⟩, []) ∧
    getTargetDigest plainEnv c3Cfg ⟨[], [("b", "x")]⟩ "a" =
      .ok (specDigest plainEnv c3Cfg ⟨[], [("b", "x")]⟩ "a"
          { dockerfile := "Dockerfile.a", depends_on := ["b"], watch_files := [] },
        { tags := [], digests := [("b", "x"),
            ("a", specDigest plainEnv c3Cfg ⟨[], [("b", "x")]⟩ "a"
              { dockerfile := "Dockerfile.a", depends_on := ["b"], watch_files := [] })] }, ["a"]) ∧
    (∀ dep ∈ depsOf c3Cfg "a", (lookupA (FactoryState.digests ⟨[], [("b", "x")]⟩) dep).isSome = true) := by
  refine ⟨?_, ?_, ?_⟩
  · exact (C3_digest_order_and_memoization plainEnv c3Cfg ⟨[], [("b", "x")]⟩ "b").1 "x" rfl
  · exact (C3_digest_order_and_memoization plainEnv c3Cfg ⟨[], [("b", "x")]⟩ "a").2.1
      { dockerfile := "Dockerfile.a", depends_on := ["b"], watch_files := [] }
      rfl rfl (by decide) (by decide)
  · exact (C3_digest_order_and_memoization plainEnv c3Cfg ⟨[], [("b", "x")]⟩ "a").2.2.2
      (specDigest plainEnv c3Cfg ⟨[], [("b", "x")]⟩ "a"
        { dockerfile := "Dockerfile.a", depends_on := ["b"], watch_files := [] })
      { tags := [], digests := [("b", "x"),
          ("a", specDigest plainEnv c3Cfg ⟨[], [("b", "x")]⟩ "a"
            { dockerfile := "Dockerfile.a", depends_on := ["b"], watch_files := [] })] } ["a"]
      rfl ((C3_digest_order_and_memoization plainEnv c3Cfg ⟨[], [("b", "x")]⟩ "a").2.1
        { dockerfile := "Dockerfile.a", depends_on := ["b"], watch_files := [] }
        rfl rfl (by decide) (by decide))

/-- C4: `get_target_tag` returns the caller-supplied explicit tag when
one was supplied for the target (first conjunct), and otherwise the
first `short_digest_size` characters of the target's digest (second
conjunct); the digest computation itself never reads
`short_digest_size`, so changing that option changes only the length of
the truncation, never which digest is truncated (third conjunct). -/
theorem C4_tag_explicit_or_truncated_digest :
    ∀ (env : FactoryEnv) (cfg : PrefabConfig) (st : FactoryState) (t : String),
      (∀ tg, lookupA st.tags t = some tg → getTargetTag env cfg st t = .ok (tg, st, [])) ∧
      (∀ d st1 tr, lookupA st.tags t = none →
        getTargetDigest env cfg st t = .ok (d, st1, tr) →
        getTargetTag env cfg st t = .ok (d.take cfg.short_digest_size,
          { st1 with tags := st1.tags ++ [(t, d.take cfg.short_digest_size)] }, tr)) ∧
      (∀ n, getTargetDigest env { cfg with short_digest_size := n } st t =
        getTargetDigest env cfg st t) := by
  intro env cfg st t
  refine ⟨?_, ?_, ?_⟩
  · intro tg h
    simp [getTargetTag, h]
  · intro d st1 tr hnone hd
    simp [getTargetTag, hnone, hd]
  · intro n
    rfl

/-- Witness: C4 at a concrete configuration — an explicit tag is
returned as-is, a missing tag is the truncated digest, and the digest
ignores `short_digest_size`. -/
theorem C4_tag_explicit_or_truncated_digest_witness :
    getTargetTag plainEnv c3Cfg ⟨[("b", "explicit")], []⟩ "b" =
      .ok ("explicit", ⟨[("b", "explicit")], []⟩, []) ∧
    getTargetTag plainEnv c3Cfg ⟨[], [("b", "bdigest")]⟩ "b" =
      .ok ("bdigest".take 12, ⟨[("b", "bdigest".take 12)], [("b", "bdigest")]⟩, []) ∧
    getTargetDigest plainEnv { c3Cfg with short_digest_size := 5 } ⟨[], []⟩ "b" =
      getTargetDigest plainEnv c3Cfg ⟨[], []⟩ "b" :=
  ⟨(C4_tag_explicit_or_truncated_digest plainEnv c3Cfg ⟨[("b", "explicit")], []⟩ "b").1
      "explicit" rfl,
   (C4_tag_explicit_or_truncated_digest plainEnv c3Cfg ⟨[], [("b", "bdigest")]⟩ "b").2.1
      "bdigest" ⟨[], [("b", "bdigest")]⟩ [] rfl rfl,
   (C4_tag_explicit_or_truncated_digest plainEnv c3Cfg ⟨[], []⟩ "b").2.2 5⟩

/-- C10 counterexample: the two distinct declared dependencies `a-b`
and `a_b` of target t normalize to the same build-argument identifier
`PREFAB_A_B`, so the buildargs dict holds a single entry — not one
entry per declared dependency, and not distinct entries for distinct
dependencies. -/
theorem C10_buildargs_collision :
    getTargetBuildargs plainEnv c10Cfg c10St "t" = .ok ([("PREFAB_A_B", "repo:y")], c10St) ∧
    (depsOf c10Cfg "t").length = 2 :=
  ⟨rfl, rfl⟩

/-- C10 (amended): provided the normalized identifiers of the declared
dependencies are pairwise distinct, `get_target_buildargs` produces
exactly one entry per declared dependency, in declaration order,
mapping the prefixed, upper-cased, dash-normalized identifier to
`"repo:tag(dependency)"` (the dependency's memoized tag), and distinct
dependencies yield distinct entries; dependencies whose normalized
identifiers collide share one entry (last assignment wins). -/
theorem C10_buildargs_one_entry_per_dependency :
    ∀ (env : FactoryEnv) (cfg : PrefabConfig) (st : FactoryState) (t : String)
      (tc : TargetConfig) (ba : List (String × String)) (st1 : FactoryState),
      getTarget cfg t = .ok tc →
      getTargetBuildargs env cfg st t = .ok (ba, st1) →
      (tc.depends_on.map (buildargKey cfg)).Nodup →
      ba = tc.depends_on.map (fun d =>
        (buildargKey cfg d, env.repo ++ ":" ++ (lookupA st1.tags d).getD "")) ∧
      ba.length = tc.depends_on.length ∧
      (ba.map Prod.fst).Nodup := by
  intro env cfg st t tc ba st1 hgt h hnd
  unfold getTargetBuildargs at h
  rw [hgt] at h
  dsimp only at h
  have hba := buildargsLoop_spec tc.depends_on [] st ba st1 h (by simp) hnd
  rw [List.nil_append] at hba
  refine ⟨hba, by rw [hba]; simp, ?_⟩
  rw [hba]
  simpa [List.map_map, Function.comp] using hnd

/-- Witness: C10 (amended) at the two-dependency configuration. -/
theorem C10_buildargs_one_entry_per_dependency_witness :
    ∃ ba st1, getTargetBuildargs plainEnv c10w ⟨[("u", "1"), ("v", "2")], []⟩ "t" =
        .ok (ba, st1) ∧
      ba = ["u", "v"].map (fun d =>
        (buildargKey c10w d, "repo" ++ ":" ++ (lookupA st1.tags d).getD "")) ∧
      ba.length = 2 ∧ (ba.map Prod.fst).Nodup := by
  refine ⟨[("PREFAB_U", "repo:1"), ("PREFAB_V", "repo:2")],
    ⟨[("u", "1"), ("v", "2")], []⟩, rfl, ?_⟩
  have := C10_buildargs_one_entry_per_dependency plainEnv c10w
    ⟨[("u", "1"), ("v", "2")], []⟩ "t"
    { dockerfile := "Dockerfile.t", depends_on := ["u", "v"], watch_files := [] }
    [("PREFAB_U", "repo:1"), ("PREFAB_V", "repo:2")]
    ⟨[("u", "1"), ("v", "2")], []⟩ rfl rfl (by decide)
  exact this

lemma buildImage_evs {cfg : PrefabConfig} {env : EnvMap} {w : WState} {t : String} :
    BuildEvent.triedBuild t ∈ (buildImage cfg env w t).1 ∧
    ∀ ev ∈ (buildImage cfg env w t).1, buildPhaseEvent ev = true := by
  unfold buildImage
  cases imageBuild (env t) (w t) with
  | error e => exact ⟨by simp, by intro ev hev; simp at hev; simp [hev, buildPhaseEvent]⟩
  | ok st1 =>
    by_cases hp : cfg.prune_after_build
    · refine ⟨by simp [hp], ?_⟩
      intro ev hev
      simp [hp] at hev
      rcases hev with rfl | rfl <;> simp [buildPhaseEvent]
    · refine ⟨by simp [hp], ?_⟩
      intro ev hev
      simp [hp] at hev
      simp [hev, buildPhaseEvent]

/-- With `force` or `cache_invalidated` set, the remainder of a build
order is processed by the unconditional-build path only: every emitted
event is a build-phase event, and on success every remaining image gets
a build attempt. -/
lemma loop_ci_buildish {cfg : PrefabConfig} {env : EnvMap} :
    ∀ (chain : List String) (w : WState) (force ci : Bool), (force || ci) = true →
      (∀ ev ∈ (buildTargetImagesLoop cfg env chain w force ci).1, buildPhaseEvent ev = true) ∧
      ((buildTargetImagesLoop cfg env chain w force ci).2.2 = .ok () →
        ∀ t ∈ chain, BuildEvent.triedBuild t ∈ (buildTargetImagesLoop cfg env chain w force ci).1) := by
  intro chain
  induction chain with
  | nil =>
    intro w force ci _
    exact ⟨by intro ev hev; simp [buildTargetImagesLoop] at hev,
      by intro _ t ht; simp at ht⟩
  | cons t rest ih =>
    intro w force ci hfc
    have hguard : (force || ci) = true := hfc
    rcases hbi : buildImage cfg env w t with ⟨evsb, wb, rb⟩
    have hbevs := @buildImage_evs cfg env w t
    rw [hbi] at hbevs
    cases rb with
    | error e =>
      have hloop : buildTargetImagesLoop cfg env (t :: rest) w force ci =
          (evsb, wb, .error e) := by
        simp only [buildTargetImagesLoop, hguard, if_true, hbi]
      rw [hloop]
      exact ⟨hbevs.2, by intro hok; cases hok⟩
    | ok u =>
      rcases hlr : buildTargetImagesLoop cfg env rest wb force true with ⟨evs2, w2, r2⟩
      have hloop : buildTargetImagesLoop cfg env (t :: rest) w force ci =
          (evsb ++ evs2, w2, r2) := by
        simp only [buildTargetImagesLoop, hguard, if_true, hbi, hlr]
      rw [hloop]
      have hr := ih wb force true (by simp)
      rw [hlr] at hr
      constructor
      · intro ev hev
        rcases List.mem_append.mp hev with h1 | h1
        · exact hbevs.2 ev h1
        · exact hr.1 ev h1
      · intro hok t2 ht2
        rcases List.mem_cons.mp ht2 with rfl | hmem
        · exact List.mem_append_left _ hbevs.1
        · exact List.mem_append_right _ (hr.2 hok t2 hmem)

lemma updW_apply {w : WState} {t : String} {st : ImageState} : updW w t st t = st := by
  simp [updW]

lemma updW_updW {w : WState} {t : String} {st1 st2 : ImageState} :
    updW (updW w t st1) t st2 = updW w t st2 := by
  funext n
  by_cases h : n = t <;> simp [updW, h]

lemma eta_loaded {st : ImageState} {b : Bool} (h : st.loaded = some b) :
    { st with loaded := some b } = st := by
  cases st
  simp only [ImageState.mk.injEq] at h ⊢
  simp_all

lemma isLoaded_false {ei : ImageEnv} {st : ImageState}
    (h : st.loaded = some false ∨ (st.loaded = none ∧ dockerPresent ei st = false)) :
    isLoaded ei st = (false, { st with loaded := some false }) := by
  rcases h with h | ⟨h1, h2⟩
  · simp [isLoaded, h, eta_loaded h]
  · simp [isLoaded, h1, h2]

lemma isLoaded_true {ei : ImageEnv} {st : ImageState}
    (h : st.loaded = some true ∨ (st.loaded = none ∧ dockerPresent ei st = true)) :
    isLoaded ei st = (true, { st with loaded := some true }) := by
  rcases h with h | ⟨h1, h2⟩
  · simp [isLoaded, h, eta_loaded h]
  · simp [isLoaded, h1, h2]

/-- A pull failure of an allowed kind during the load attempt: logged,
swallowed, image reported absent. -/
lemma load_pull_tolerated {cfg : PrefabConfig} {env : EnvMap} {w : WState} {t : String}
    {e : PrefabError} (hp : (env t).pullError = some e)
    (ha : isAllowedPullError cfg e = true)
    (hnl : (w t).loaded = some false ∨ ((w t).loaded = none ∧ dockerPresent (env t) (w t) = false)) :
    loadTargetImage cfg env w t =
      ([.imageNotLoaded t, .triedPull t, .pullErrorAllowed t],
        updW w t { w t with loaded := some false }, .ok false) := by
  have hil := isLoaded_false hnl
  simp only [loadTargetImage, loadTargetImageAux, hil, if_false, Bool.false_eq_true,
    pullTargetImage, updW_apply, imagePull, hp, ha, loadFinish, updW_updW]
  simp [updW_apply, isLoaded, updW_updW]

/-- A pull failure of a kind `DockerImage.pull` raises
(`ImageNotFoundError` or `ImageAccessError`) that is not in the allowed
tuple: propagates out of the load attempt. -/
lemma load_pull_fatal {cfg : PrefabConfig} {env : EnvMap} {w : WState} {t : String}
    {e : PrefabError} (hp : (env t).pullError = some e)
    (ha : isAllowedPullError cfg e = false)
    (hkind : (∃ m, e = .imageNotFoundError m) ∨ (∃ m, e = .imageAccessError m))
    (hnl : (w t).loaded = some false ∨ ((w t).loaded = none ∧ dockerPresent (env t) (w t) = false)) :
    loadTargetImage cfg env w t =
      ([.imageNotLoaded t, .triedPull t],
        updW w t { w t with loaded := some false }, .error e) := by
  have hil := isLoaded_false hnl
  rcases hkind with ⟨m, rfl⟩ | ⟨m, rfl⟩ <;>
    simp only [loadTargetImage, loadTargetImageAux, hil, if_false, Bool.false_eq_true,
      pullTargetImage, updW_apply, imagePull, hp, ha, loadFinish, updW_updW] <;>
    simp [updW_apply, isLoaded, updW_updW]

/-- A successful build step: always a build attempt, only build-phase
events, and the image ends up marked built. -/
lemma buildImage_ok {cfg : PrefabConfig} {env : EnvMap} {w : WState} {t : String}
    (hb : (env t).buildError = none) :
    ∃ evsb wb, buildImage cfg env w t = (evsb, wb, .ok ()) ∧
      (wb t).was_built = true ∧ BuildEvent.triedBuild t ∈ evsb ∧
      ∀ ev ∈ evsb, buildPhaseEvent ev = true := by
  by_cases hpr : cfg.prune_after_build
  · refine ⟨[.triedBuild t, .pruned t], updW w t { w t with was_built := true, loaded := some true },
      ?_, by simp [updW_apply], by simp, ?_⟩
    · simp [buildImage, imageBuild, hb, hpr]
    · intro ev hev
      simp at hev
      rcases hev with rfl | rfl <;> simp [buildPhaseEvent]
  · refine ⟨[.triedBuild t], updW w t { w t with was_built := true, loaded := some true },
      ?_, by simp [updW_apply], by simp, ?_⟩
    · simp [buildImage, imageBuild, hb, hpr]
    · intro ev hev
      simp at hev
      simp [hev, buildPhaseEvent]

/-- C5: within one `build_target_images` call, once `force` is set or
`cache_invalidated` has become true, every remaining artifact of the
build order is built unconditionally — every emitted event is a
build-phase event, no load/pull/validate event ever occurs, and on
success every remaining image gets a build attempt.  In particular
(second conjunct), when an upstream artifact's tolerated pull failure
leads to it being built, every downstream artifact of the same chain is
built with no load, pull or validate attempt. -/
theorem C5_forward_cache_invalidation :
    (∀ (cfg : PrefabConfig) (env : EnvMap) (chain : List String) (w : WState) (force ci : Bool),
      force = true ∨ ci = true →
      (∀ ev ∈ (buildTargetImagesLoop cfg env chain w force ci).1, buildPhaseEvent ev = true) ∧
      ((buildTargetImagesLoop cfg env chain w force ci).2.2 = .ok () →
        ∀ t ∈ chain, BuildEvent.triedBuild t ∈ (buildTargetImagesLoop cfg env chain w force ci).1)) ∧
    (∀ (cfg : PrefabConfig) (env : EnvMap) (w : WState) (t : String) (rest : List String)
      (e : PrefabError),
      (env t).pullError = some e → isAllowedPullError cfg e = true →
      ((w t).loaded = some false ∨ ((w t).loaded = none ∧ dockerPresent (env t) (w t) = false)) →
      (env t).buildError = none →
      ∃ evs2,
        (buildTargetImages cfg env (t :: rest) w false).1 =
          [.imageNotLoaded t, .triedPull t, .pullErrorAllowed t] ++ evs2 ∧
        BuildEvent.triedBuild t ∈ evs2 ∧
        (∀ ev ∈ evs2, buildPhaseEvent ev = true) ∧
        ((buildTargetImages cfg env (t :: rest) w false).2.2 = .ok () →
          ∀ m ∈ rest, BuildEvent.triedBuild m ∈ evs2)) := by
  constructor
  · intro cfg env chain w force ci h
    have hfc : (force || ci) = true := by
      rcases h with rfl | rfl <;> simp
    exact loop_ci_buildish chain w force ci hfc
  · intro cfg env w t rest e hp ha hnl hb
    have hload := load_pull_tolerated hp ha hnl
    obtain ⟨evsb, wb, hbi, hwb, htb, hbevs⟩ :=
      @buildImage_ok cfg env (updW w t { w t with loaded := some false }) t hb
    rcases hlr : buildTargetImagesLoop cfg env rest wb false true with ⟨evs3, w3, r3⟩
    have hrest := @loop_ci_buildish cfg env rest wb false true (by simp)
    rw [hlr] at hrest
    have hloop : buildTargetImages cfg env (t :: rest) w false =
        ([.imageNotLoaded t, .triedPull t, .pullErrorAllowed t] ++ (evsb ++ evs3), w3, r3) := by
      simp only [buildTargetImages, buildTargetImagesLoop, Bool.or_self, Bool.false_eq_true,
        if_false, hload, hbi, hwb, Bool.or_true, hlr]
      simp [List.append_assoc]
    refine ⟨evsb ++ evs3, by rw [hloop], List.mem_append_left _ htb, ?_, ?_⟩
    · intro ev hev
      rcases List.mem_append.mp hev with h1 | h1
      · exact hbevs ev h1
      · exact hrest.1 ev h1
    · intro hok m hm
      rw [hloop] at hok
      exact List.mem_append_right _ (hrest.2 hok m hm)

/-- Witness: C5 with `force` on a one-target chain, and the
tolerated-pull-then-build scenario on the base→app chain. -/
theorem C5_forward_cache_invalidation_witness :
    ((∀ ev ∈ (buildTargetImagesLoop c9Cfg c9Env ["base", "app"] freshW true false).1,
        buildPhaseEvent ev = true) ∧
      ((buildTargetImagesLoop c9Cfg c9Env ["base", "app"] freshW true false).2.2 = .ok () →
        ∀ t ∈ ["base", "app"],
          BuildEvent.triedBuild t ∈ (buildTargetImagesLoop c9Cfg c9Env ["base", "app"] freshW true false).1)) ∧
    (∃ evs2,
      (buildTargetImages c9Cfg c9Env ("base" :: ["app"]) freshW false).1 =
        [.imageNotLoaded "base", .triedPull "base", .pullErrorAllowed "base"] ++ evs2 ∧
      BuildEvent.triedBuild "base" ∈ evs2 ∧
      (∀ ev ∈ evs2, buildPhaseEvent ev = true) ∧
      ((buildTargetImages c9Cfg c9Env ("base" :: ["app"]) freshW false).2.2 = .ok () →
        ∀ m ∈ ["app"], BuildEvent.triedBuild m ∈ evs2)) :=
  ⟨C5_forward_cache_invalidation.1 c9Cfg c9Env ["base", "app"] freshW true false (Or.inl rfl),
   C5_forward_cache_invalidation.2 c9Cfg c9Env freshW "base" ["app"]
     (.imageNotFoundError "manifest unknown") rfl (by decide) (Or.inr ⟨rfl, rfl⟩) rfl⟩

/-- C7: during the load attempt, a pull exception whose class is in the
configured allowed tuple is logged (the `pullErrorAllowed` event) and
treated as the artifact still being absent (`ok false`, nothing
propagated); a pull exception of any other kind — `DockerImage.pull`
surfaces engine failures as `ImageNotFoundError` or
`ImageAccessError` — propagates out of the load attempt and aborts the
chain. -/
theorem C7_allowed_pull_error_policy :
    ∀ (cfg : PrefabConfig) (env : EnvMap) (w : WState) (t : String) (e : PrefabError),
      (env t).pullError = some e →
      ((w t).loaded = some false ∨ ((w t).loaded = none ∧ dockerPresent (env t) (w t) = false)) →
      (isAllowedPullError cfg e = true →
        loadTargetImage cfg env w t =
          ([.imageNotLoaded t, .triedPull t, .pullErrorAllowed t],
            updW w t { w t with loaded := some false }, .ok false)) ∧
      (isAllowedPullError cfg e = false →
        ((∃ m, e = .imageNotFoundError m) ∨ (∃ m, e = .imageAccessError m)) →
        loadTargetImage cfg env w t =
          ([.imageNotLoaded t, .triedPull t],
            updW w t { w t with loaded := some false }, .error e) ∧
        ∀ rest, (buildTargetImages cfg env (t :: rest) w false).2.2 = .error e) := by
  intro cfg env w t e hp hnl
  constructor
  · intro ha
    exact load_pull_tolerated hp ha hnl
  · intro ha hkind
    have hload := load_pull_fatal hp ha hkind hnl
    refine ⟨hload, fun rest => ?_⟩
    simp only [buildTargetImages, buildTargetImagesLoop, Bool.or_self, Bool.false_eq_true,
      if_false, hload]

/-- Witness: C7 at the base target — the default allowed list tolerates
`ImageNotFoundError`; an empty allowed list propagates it and aborts
the chain. -/
theorem C7_allowed_pull_error_policy_witness :
    (loadTargetImage c9Cfg c9Env freshW "base" =
      ([.imageNotLoaded "base", .triedPull "base", .pullErrorAllowed "base"],
        updW freshW "base" { freshW "base" with loaded := some false }, .ok false)) ∧
    (loadTargetImage c7Cfg c9Env freshW "base" =
      ([.imageNotLoaded "base", .triedPull "base"],
        updW freshW "base" { freshW "base" with loaded := some false },
        .error (.imageNotFoundError "manifest unknown")) ∧
      ∀ rest, (buildTargetImages c7Cfg c9Env ("base" :: rest) freshW false).2.2 =
        .error (.imageNotFoundError "manifest unknown")) :=
  ⟨(C7_allowed_pull_error_policy c9Cfg c9Env freshW "base"
      (.imageNotFoundError "manifest unknown") rfl (Or.inr ⟨rfl, rfl⟩)).1 (by decide),
   (C7_allowed_pull_error_policy c7Cfg c9Env freshW "base"
      (.imageNotFoundError "manifest unknown") rfl (Or.inr ⟨rfl, rfl⟩)).2 (by decide)
      (Or.inl ⟨"manifest unknown", rfl⟩)⟩

/-- C9 counterexample: in `build(["app"])` with app's artifact present
and validating, the dependency-first build order processes base first;
base is absent, its pull fails (tolerated), and base is then built — a
pull call and a build call are issued for base even though app's
artifact exists and validates, and app itself is then rebuilt through
cache invalidation instead of being loaded. -/
theorem C9_base_pulled_and_built_despite_app_present :
    (graphBuild c9Cfg c9Env freshW ["app"] false).1 =
      [.imageNotLoaded "base", .triedPull "base", .pullErrorAllowed "base",
       .triedBuild "base", .pruned "base", .triedBuild "app", .pruned "app"] ∧
    (c9Env "app").present = true ∧
    imageValidate (c9Env "app") { freshW "app" with loaded := some true } = .ok () ∧
    BuildEvent.triedPull "base" ∈ (graphBuild c9Cfg c9Env freshW ["app"] false).1 ∧
    BuildEvent.triedBuild "base" ∈ (graphBuild c9Cfg c9Env freshW ["app"] false).1 := by
  refine ⟨rfl, rfl, rfl, ?_, ?_⟩ <;> decide

/-- When every image of a build order loads and validates, the whole
chain is processed on the load-only path: no pull, no build. -/
lemma loop_all_loaded {cfg : PrefabConfig} {env : EnvMap} :
    ∀ (chain : List String) (w : WState), (∀ m ∈ chain, LoadsClean env w m) →
      (∀ ev ∈ (buildTargetImagesLoop cfg env chain w false false).1, loadOnlyEvent ev = true) ∧
      (buildTargetImagesLoop cfg env chain w false false).2.2 = .ok () := by
  intro chain
  induction chain with
  | nil =>
    intro w _
    exact ⟨by intro ev hev; simp [buildTargetImagesLoop] at hev, rfl⟩
  | cons t rest ih =>
    intro w hall
    obtain ⟨hl, hpres, hlab, hwb⟩ := hall t (List.mem_cons_self _ _)
    have hil : isLoaded (env t) (w t) = (true, { w t with loaded := some true }) := by
      rcases hl with hl | hl
      · exact isLoaded_true (Or.inl hl)
      · exact isLoaded_true (Or.inr ⟨hl, hpres⟩)
    have hil2 : isLoaded (env t) { w t with loaded := some true } =
        (true, { w t with loaded := some true }) := rfl
    have hpres2 : dockerPresent (env t) { w t with loaded := some true } = true := hpres
    have hval : imageValidate (env t) { w t with loaded := some true } = .ok () := by
      unfold imageValidate
      rw [hpres2]
      simp only [Bool.true_eq_false, if_false]
      exact hlab ▸ rfl
    have hload : loadTargetImage cfg env w t =
        ((if cfg.validate_image then [.imageLoaded t, .imageValidated t] else [.imageLoaded t]),
          updW w t { w t with loaded := some true }, .ok true) := by
      by_cases hv : cfg.validate_image <;>
        simp only [loadTargetImage, loadTargetImageAux, loadFinish, hil, updW_apply,
          updW_updW, hil2, hv, hval, Bool.and_true, Bool.and_false, if_true, if_false,
          reduceIte] <;>
        simp [hval]
    have hstep : ∀ m ∈ rest, LoadsClean env (updW w t { w t with loaded := some true }) m := by
      intro m hm
      by_cases he : m = t
      · subst he
        obtain ⟨h1, h2, h3, h4⟩ := hall m (List.mem_cons_self _ _)
        refine ⟨Or.inl (by simp [updW_apply]), ?_, ?_, ?_⟩
        · show dockerPresent (env m) (updW w m { w m with loaded := some true } m) = true
          rw [updW_apply]
          exact h2
        · show (updW w m { w m with loaded := some true } m).labels.find? _ = none
          rw [updW_apply]
          exact h3
        · show (updW w m { w m with loaded := some true } m).was_built = false
          rw [updW_apply]
          exact h4
      · have := hall m (List.mem_cons_of_mem _ hm)
        unfold LoadsClean at this ⊢
        simpa [updW, he] using this
    have hiw : (updW w t { w t with loaded := some true } t).was_built = false := by
      rw [updW_apply]
      exact hwb
    rcases hlr : buildTargetImagesLoop cfg env rest (updW w t { w t with loaded := some true })
        false false with ⟨evs3, w3, r3⟩
    have hrest := ih (updW w t { w t with loaded := some true }) hstep
    rw [hlr] at hrest
    have hloop : buildTargetImagesLoop cfg env (t :: rest) w false false =
        ((if cfg.validate_image then [.imageLoaded t, .imageValidated t] else [.imageLoaded t])
          ++ evs3, w3, r3) := by
      simp only [buildTargetImagesLoop, Bool.or_self, Bool.false_eq_true, if_false, hload,
        if_true, hiw, Bool.or_false, hlr]
      simp
    rw [hloop]
    refine ⟨?_, hrest.2⟩
    intro ev hev
    rcases List.mem_append.mp hev with h1 | h1
    · by_cases hv : cfg.validate_image
      · rw [if_pos hv] at h1
        simp at h1
        rcases h1 with rfl | rfl <;> simp [loadOnlyEvent]
      · rw [if_neg hv] at h1
        simp at h1
        simp [h1, loadOnlyEvent]
    · exact hrest.1 ev h1

/-- C9 (amended): for the two-target graph base/app, when both
artifacts exist and validate (and were not built before), building app
is satisfied by the load-only path: the run succeeds, every event is a
load event, and no pull call and no build call is issued for base (nor
for app). -/
theorem C9_load_only_path :
    ∀ (env : EnvMap) (w : WState),
      LoadsClean env w "base" → LoadsClean env w "app" →
      (graphBuild c9Cfg env w ["app"] false).2.2 = .ok () ∧
      (∀ ev ∈ (graphBuild c9Cfg env w ["app"] false).1, loadOnlyEvent ev = true) ∧
      BuildEvent.triedPull "base" ∉ (graphBuild c9Cfg env w ["app"] false).1 ∧
      BuildEvent.triedBuild "base" ∉ (graphBuild c9Cfg env w ["app"] false).1 := by
  intro env w hbase happ
  have hres : resolveChains c9Cfg ["app"] = .ok [("app", ["base", "app"])] := rfl
  have hchain : ∀ m ∈ ["base", "app"], LoadsClean env w m := by
    intro m hm
    simp at hm
    rcases hm with rfl | rfl
    · exact hbase
    · exact happ
  have hmain := @loop_all_loaded c9Cfg env ["base", "app"] w hchain
  rcases hlr : buildTargetImagesLoop c9Cfg env ["base", "app"] w false false with ⟨evs, w1, r⟩
  rw [hlr] at hmain
  have hgb : graphBuild c9Cfg env w ["app"] false = (evs ++ [], w1, r) := by
    simp only [graphBuild, hres, buildChains, buildTargetImages, hlr]
    have hr : r = Except.ok () := hmain.2
    subst hr
    rfl
  rw [hgb]
  have hevs : ∀ ev ∈ evs ++ [], loadOnlyEvent ev = true := by
    intro ev hev
    rw [List.append_nil] at hev
    exact hmain.1 ev hev
  refine ⟨?_, hevs, ?_, ?_⟩
  · show r = .ok ()
    exact hmain.2
  · intro hmem
    have := hevs _ hmem
    simp [loadOnlyEvent] at this
  · intro hmem
    have := hevs _ hmem
    simp [loadOnlyEvent] at this

/-- Witness: C9 (amended) with both artifacts present and no expected
labels. -/
theorem C9_load_only_path_witness :
    (graphBuild c9Cfg (fun _ => { present := true }) freshW ["app"] false).2.2 = .ok () ∧
    (∀ ev ∈ (graphBuild c9Cfg (fun _ => { present := true }) freshW ["app"] false).1,
      loadOnlyEvent ev = true) ∧
    BuildEvent.triedPull "base" ∉
      (graphBuild c9Cfg (fun _ => { present := true }) freshW ["app"] false).1 ∧
    BuildEvent.triedBuild "base" ∉
      (graphBuild c9Cfg (fun _ => { present := true }) freshW ["app"] false).1 :=
  C9_load_only_path (fun _ => { present := true }) freshW (by decide) (by decide)

/-- C6 counterexample: one run building x then y, both depending on the
shared artifact a.  Building a during x's chain leaves `was_built` set
on the shared instance, so in y's chain a is merely loaded yet
`cache_invalidated` is raised and y is rebuilt unconditionally — no
load check, no pull — even though y's artifact is present and would
validate. -/
theorem C6_earlier_chain_build_invalidates_later_chain :
    (graphBuild c6Cfg c6Env freshW ["x", "y"] false).1 =
      [.imageNotLoaded "a", .triedPull "a", .pullErrorAllowed "a", .triedBuild "a", .pruned "a",
       .triedBuild "x", .pruned "x",
       .imageLoaded "a", .imageValidated "a", .triedBuild "y", .pruned "y"] ∧
    (c6Env "y").present = true ∧
    imageValidate (c6Env "y") { freshW "y" with loaded := some true } = .ok () ∧
    BuildEvent.triedBuild "y" ∈ (graphBuild c6Cfg c6Env freshW ["x", "y"] false).1 ∧
    BuildEvent.imageLoaded "y" ∉ (graphBuild c6Cfg c6Env freshW ["x", "y"] false).1 ∧
    BuildEvent.imageNotLoaded "y" ∉ (graphBuild c6Cfg c6Env freshW ["x", "y"] false).1 ∧
    BuildEvent.triedPull "y" ∉ (graphBuild c6Cfg c6Env freshW ["x", "y"] false).1 := by
  refine ⟨rfl, rfl, rfl, ?_, ?_, ?_, ?_⟩ <;> decide

/-- C6 (amended): the `cache_invalidated` flag variable itself is local
— every `build_target_images` call starts its loop with the flag false
(first conjunct) — but the `was_built` marker of a shared image object
persists across chains: when a chain member that was built in
an earlier chain is merely loaded, the flag is still raised and every
remaining artifact of the later chain is built unconditionally (second
conjunct). -/
theorem C6_flag_local_but_was_built_persists :
    (∀ (cfg : PrefabConfig) (env : EnvMap) (chain : List String) (w : WState) (force : Bool),
      buildTargetImages cfg env chain w force = buildTargetImagesLoop cfg env chain w force false) ∧
    (∀ (cfg : PrefabConfig) (env : EnvMap) (w : WState) (t : String) (rest : List String)
      (evs1 : List BuildEvent) (w1 : WState),
      loadTargetImage cfg env w t = (evs1, w1, .ok true) →
      (w1 t).was_built = true →
      (buildTargetImages cfg env (t :: rest) w false).1 =
        evs1 ++ (buildTargetImagesLoop cfg env rest w1 false true).1 ∧
      (buildTargetImages cfg env (t :: rest) w false).2.2 =
        (buildTargetImagesLoop cfg env rest w1 false true).2.2 ∧
      (∀ ev ∈ (buildTargetImagesLoop cfg env rest w1 false true).1, buildPhaseEvent ev = true) ∧
      ((buildTargetImagesLoop cfg env rest w1 false true).2.2 = .ok () →
        ∀ m ∈ rest, BuildEvent.triedBuild m ∈ (buildTargetImagesLoop cfg env rest w1 false true).1)) := by
  constructor
  · intro cfg env chain w force
    rfl
  · intro cfg env w t rest evs1 w1 hload hwb
    rcases hlr : buildTargetImagesLoop cfg env rest w1 false true with ⟨evs3, w3, r3⟩
    have hrest := @loop_ci_buildish cfg env rest w1 false true (by simp)
    rw [hlr] at hrest
    have hloop : buildTargetImages cfg env (t :: rest) w false = (evs1 ++ evs3, w3, r3) := by
      simp only [buildTargetImages, buildTargetImagesLoop, Bool.or_self, Bool.false_eq_true,
        if_false, hload, if_true, hwb, Bool.or_true, hlr]
      simp
    simp only [hloop, hlr]
    exact ⟨trivial, trivial, hrest.1, hrest.2⟩

/-- Witness: C6 (amended) at the shared artifact a, already built by an
earlier chain and merely loaded now. -/
theorem C6_flag_local_but_was_built_persists_witness :
    buildTargetImages c6Cfg c6Env ["y"] c6W2 false =
      buildTargetImagesLoop c6Cfg c6Env ["y"] c6W2 false false ∧
    ((buildTargetImages c6Cfg c6Env ("a" :: ["y"]) c6W2 false).1 =
      [BuildEvent.imageLoaded "a", BuildEvent.imageValidated "a"] ++
        (buildTargetImagesLoop c6Cfg c6Env ["y"]
          (loadTargetImage c6Cfg c6Env c6W2 "a").2.1 false true).1 ∧
    (buildTargetImages c6Cfg c6Env ("a" :: ["y"]) c6W2 false).2.2 =
      (buildTargetImagesLoop c6Cfg c6Env ["y"]
        (loadTargetImage c6Cfg c6Env c6W2 "a").2.1 false true).2.2 ∧
    (∀ ev ∈ (buildTargetImagesLoop c6Cfg c6Env ["y"]
        (loadTargetImage c6Cfg c6Env c6W2 "a").2.1 false true).1, buildPhaseEvent ev = true) ∧
    ((buildTargetImagesLoop c6Cfg c6Env ["y"]
        (loadTargetImage c6Cfg c6Env c6W2 "a").2.1 false true).2.2 = .ok () →
      ∀ m ∈ ["y"], BuildEvent.triedBuild m ∈ (buildTargetImagesLoop c6Cfg c6Env ["y"]
        (loadTargetImage c6Cfg c6Env c6W2 "a").2.1 false true).1)) :=
  ⟨C6_flag_local_but_was_built_persists.1 c6Cfg c6Env ["y"] c6W2 false,
   C6_flag_local_but_was_built_persists.2 c6Cfg c6Env c6W2 "a" ["y"]
     [BuildEvent.imageLoaded "a", BuildEvent.imageValidated "a"]
     (loadTargetImage c6Cfg c6Env c6W2 "a").2.1 rfl (by decide)⟩

lemma wpres_refl {w : WState} : WPres w w := fun _ h => h

lemma wpres_trans {w w1 w2 : WState} (h1 : WPres w w1) (h2 : WPres w1 w2) : WPres w w2 :=
  fun n h => h2 n (h1 n h)

lemma wpres_updW {w : WState} {t : String} {st : ImageState}
    (h : (w t).loaded = some true → st.loaded = some true) : WPres w (updW w t st) := by
  intro n hn
  by_cases he : n = t
  · subst he
    rw [updW_apply]
    exact h hn
  · simpa [updW, he] using hn

lemma isLoaded_cache_pres {ei : ImageEnv} {st : ImageState} (h : st.loaded = some true) :
    ((isLoaded ei st).2).loaded = some true := by
  simp [isLoaded, h]

lemma isLoaded_fst_true {ei : ImageEnv} {st : ImageState} (h : (isLoaded ei st).1 = true) :
    ((isLoaded ei st).2).loaded = some true := by
  cases hl : st.loaded with
  | some b =>
    simp only [isLoaded, hl] at h ⊢
    simp [h]
  | none =>
    simp only [isLoaded, hl] at h ⊢
    rw [h]

lemma loadFinish_pres {cfg : PrefabConfig} {env : EnvMap} {evs0 : List BuildEvent}
    {w : WState} {t : String} {evs : List BuildEvent} {w1 : WState} {r : Except PrefabError Bool}
    (h : loadFinish cfg env evs0 w t = (evs, w1, r)) :
    WPres w w1 ∧ ∀ b, r = .ok b → b = true → (w1 t).loaded = some true := by
  unfold loadFinish at h
  rcases hil : isLoaded (env t) (w t) with ⟨b0, st0⟩
  rw [hil] at h
  have hpres : WPres w (updW w t st0) := by
    refine wpres_updW (fun hw => ?_)
    have := @isLoaded_cache_pres (env t) _ hw
    rw [hil] at this
    exact this
  have hfst : b0 = true → st0.loaded = some true := by
    intro hb
    have := @isLoaded_fst_true (env t) (w t) (by rw [hil]; exact hb)
    rw [hil] at this
    exact this
  by_cases hv : (b0 && cfg.validate_image) = true
  · rw [if_pos hv] at h
    cases hval : imageValidate (env t) (updW w t st0 t) with
    | error e =>
      rw [hval] at h
      cases h
      exact ⟨hpres, by intro b hb; cases hb⟩
    | ok u =>
      rw [hval] at h
      cases h
      refine ⟨hpres, ?_⟩
      intro b hb hbt
      cases hb
      rw [updW_apply]
      exact hfst hbt
  · rw [if_neg hv] at h
    cases h
    refine ⟨hpres, ?_⟩
    intro b hb hbt
    cases hb
    rw [updW_apply]
    exact hfst hbt

lemma loadTargetImageAux_pres {cfg : PrefabConfig} {env : EnvMap} {w : WState} {t : String}
    {evs : List BuildEvent} {w1 : WState} {r : Except PrefabError Bool}
    (h : loadTargetImageAux cfg env w t = (evs, w1, r)) :
    WPres w w1 ∧ ∀ b, r = .ok b → b = true → (w1 t).loaded = some true := by
  unfold loadTargetImageAux at h
  rcases hil : isLoaded (env t) (w t) with ⟨b0, st0⟩
  rw [hil] at h
  have hpres0 : WPres w (updW w t st0) := by
    refine wpres_updW (fun hw => ?_)
    have := @isLoaded_cache_pres (env t) _ hw
    rw [hil] at this
    exact this
  by_cases hb0 : b0 = true
  · rw [hb0] at h
    rw [if_pos rfl] at h
    obtain ⟨hp2, hr2⟩ := loadFinish_pres h
    exact ⟨wpres_trans hpres0 hp2, hr2⟩
  · have hb0f : b0 = false := by revert hb0; cases b0 <;> simp
    rw [hb0f] at h
    simp only [Bool.false_eq_true, if_false] at h
    unfold pullTargetImage at h
    cases hpl : imagePull (env t) (updW w t st0 t) with
    | ok st1 =>
      rw [hpl] at h
      dsimp only at h
      have hst1 : st1.loaded = some true := by
        unfold imagePull at hpl
        cases hpe : (env t).pullError with
        | some e => rw [hpe] at hpl; cases hpl
        | none => rw [hpe] at hpl; cases hpl; rfl
      obtain ⟨hp2, hr2⟩ := loadFinish_pres h
      exact ⟨wpres_trans hpres0 (wpres_trans (wpres_updW (fun _ => hst1)) hp2), hr2⟩
    | error e =>
      rw [hpl] at h
      dsimp only at h
      by_cases hae : isAllowedPullError cfg e = false
      · rw [if_pos hae] at h
        cases h
        exact ⟨hpres0, by intro b hb; cases hb⟩
      · rw [if_neg hae] at h
        obtain ⟨hp2, hr2⟩ := loadFinish_pres h
        exact ⟨wpres_trans hpres0 hp2, hr2⟩

lemma loadTargetImage_pres {cfg : PrefabConfig} {env : EnvMap} {w : WState} {t : String}
    {evs : List BuildEvent} {w1 : WState} {r : Except PrefabError Bool}
    (h : loadTargetImage cfg env w t = (evs, w1, r)) :
    WPres w w1 ∧ (r = .ok true → (w1 t).loaded = some true) := by
  unfold loadTargetImage at h
  rcases ha : loadTargetImageAux cfg env w t with ⟨evs0, w0, r0⟩
  rw [ha] at h
  obtain ⟨hp, hr⟩ := loadTargetImageAux_pres ha
  cases r0 with
  | ok b =>
    cases h
    exact ⟨hp, fun hok => hr b rfl (by cases hok; rfl)⟩
  | error e =>
    cases e <;> simp only at h <;>
      first
      | (cases h; exact ⟨hp, by intro hok; cases hok⟩)
      | (by_cases hbv : cfg.build_on_validate_error
         · rw [if_pos hbv] at h
           cases h
           exact ⟨hp, by intro hok; cases hok⟩
         · rw [if_neg hbv] at h
           cases h
           exact ⟨hp, by intro hok; cases hok⟩)

lemma buildImage_pres {cfg : PrefabConfig} {env : EnvMap} {w : WState} {t : String}
    {evs : List BuildEvent} {w1 : WState}
    (h : buildImage cfg env w t = (evs, w1, .ok ())) :
    WPres w w1 ∧ (w1 t).loaded = some true := by
  unfold buildImage at h
  cases hb : imageBuild (env t) (w t) with
  | error e => rw [hb] at h; cases h
  | ok st1 =>
    rw [hb] at h
    have hst1 : st1.loaded = some true := by
      unfold imageBuild at hb
      cases hbe : (env t).buildError with
      | some e => rw [hbe] at hb; cases hb
      | none => rw [hbe] at hb; cases hb; rfl
    by_cases hpr : cfg.prune_after_build <;> simp only [hpr, if_true, if_false, reduceIte] at h <;>
      cases h <;>
      exact ⟨wpres_updW (fun _ => hst1), by rw [updW_apply]; exact hst1⟩

/-- After a successful pass over a build order, every image of the
order is cached loaded, and previously loaded images stay loaded. -/
lemma loop_loaded {cfg : PrefabConfig} {env : EnvMap} :
    ∀ (chain : List String) (w : WState) (force ci : Bool) (evs : List BuildEvent) (w1 : WState),
      buildTargetImagesLoop cfg env chain w force ci = (evs, w1, .ok ()) →
      WPres w w1 ∧ ∀ t ∈ chain, (w1 t).loaded = some true := by
  intro chain
  induction chain with
  | nil =>
    intro w force ci evs w1 h
    simp only [buildTargetImagesLoop] at h
    cases h
    exact ⟨wpres_refl, by intro t ht; simp at ht⟩
  | cons t rest ih =>
    intro w force ci evs w1 h
    simp only [buildTargetImagesLoop] at h
    by_cases hfc : (force || ci) = true
    · rw [if_pos hfc] at h
      rcases hbi : buildImage cfg env w t with ⟨evsb, wb, rb⟩
      rw [hbi] at h
      cases rb with
      | error e => dsimp only at h; cases h
      | ok u =>
        dsimp only at h
        rcases hlr : buildTargetImagesLoop cfg env rest wb force true with ⟨evs3, w3, r3⟩
        rw [hlr] at h
        dsimp only at h
        cases h
        obtain ⟨hp1, hl1⟩ := buildImage_pres hbi
        obtain ⟨hp2, hl2⟩ := ih wb force true _ _ hlr
        refine ⟨wpres_trans hp1 hp2, ?_⟩
        intro t2 ht2
        rcases List.mem_cons.mp ht2 with rfl | hmem
        · exact hp2 t2 hl1
        · exact hl2 t2 hmem
    · rw [if_neg hfc] at h
      rcases hld : loadTargetImage cfg env w t with ⟨evsl, wl, rl⟩
      rw [hld] at h
      cases rl with
      | error e => dsimp only at h; cases h
      | ok b =>
        dsimp only at h
        obtain ⟨hp1, hl1⟩ := loadTargetImage_pres hld
        cases b with
        | true =>
          simp only [if_true, reduceIte] at h
          rcases hlr : buildTargetImagesLoop cfg env rest wl force (ci || (wl t).was_built)
            with ⟨evs3, w3, r3⟩
          rw [hlr] at h
          dsimp only at h
          cases h
          obtain ⟨hp2, hl2⟩ := ih wl force _ _ _ hlr
          refine ⟨wpres_trans hp1 hp2, ?_⟩
          intro t2 ht2
          rcases List.mem_cons.mp ht2 with rfl | hmem
          · exact hp2 t2 (hl1 rfl)
          · exact hl2 t2 hmem
        | false =>
          simp only [Bool.false_eq_true, if_false, reduceIte] at h
          rcases hbi : buildImage cfg env wl t with ⟨evsb, wb, rb⟩
          rw [hbi] at h
          cases rb with
          | error e => dsimp only at h; cases h
          | ok u =>
            dsimp only at h
            rcases hlr : buildTargetImagesLoop cfg env rest wb force (ci || (wb t).was_built)
              with ⟨evs3, w3, r3⟩
            rw [hlr] at h
            dsimp only at h
            cases h
            obtain ⟨hp2, hl2⟩ := buildImage_pres hbi
            obtain ⟨hp3, hl3⟩ := ih wb force _ _ _ hlr
            refine ⟨wpres_trans hp1 (wpres_trans hp2 hp3), ?_⟩
            intro t2 ht2
            rcases List.mem_cons.mp ht2 with rfl | hmem
            · exact hp3 t2 hl2
            · exact hl3 t2 hmem

/-- `buildChains`-level loaded invariant. -/
lemma buildChains_loaded {cfg : PrefabConfig} {env : EnvMap} :
    ∀ (chains : List (String × List String)) (w : WState) (force : Bool)
      (evs : List BuildEvent) (w1 : WState),
      buildChains cfg env chains w force = (evs, w1, .ok ()) →
      WPres w w1 ∧ ∀ p ∈ chains, ∀ t ∈ p.2, (w1 t).loaded = some true := by
  intro chains
  induction chains with
  | nil =>
    intro w force evs w1 h
    simp only [buildChains] at h
    cases h
    exact ⟨wpres_refl, by intro p hp; simp at hp⟩
  | cons c rest ih =>
    intro w force evs w1 h
    obtain ⟨nm, chain⟩ := c
    simp only [buildChains, buildTargetImages] at h
    rcases hl1 : buildTargetImagesLoop cfg env chain w force false with ⟨evs1, wA, r1⟩
    rw [hl1] at h
    cases r1 with
    | error e => dsimp only at h; cases h
    | ok u =>
      dsimp only at h
      rcases hl2 : buildChains cfg env rest wA force with ⟨evs2, wB, r2⟩
      rw [hl2] at h
      dsimp only at h
      cases h
      obtain ⟨hp1, hm1⟩ := loop_loaded chain w force false _ _ hl1
      obtain ⟨hp2, hm2⟩ := ih wA force _ _ hl2
      refine ⟨wpres_trans hp1 hp2, ?_⟩
      intro p hp t ht
      rcases List.mem_cons.mp hp with rfl | hmem
      · exact hp2 t (hm1 t ht)
      · exact hm2 p hmem t ht

/-- After a successful `build`, every image of every resolved chain is
cached loaded. -/
lemma graphBuild_loaded {cfg : PrefabConfig} {env : EnvMap} {w : WState} {targets : List String}
    {force : Bool} {evs : List BuildEvent} {w1 : WState}
    {chains : List (String × List String)}
    (hres : resolveChains cfg targets = .ok chains)
    (h : graphBuild cfg env w targets force = (evs, w1, .ok ())) :
    ∀ t ∈ (chains.map Prod.snd).flatten, (w1 t).loaded = some true := by
  unfold graphBuild at h
  rw [hres] at h
  intro t ht
  rw [List.mem_flatten] at ht
  obtain ⟨l, hl, htl⟩ := ht
  rw [List.mem_map] at hl
  obtain ⟨p, hp, rfl⟩ := hl
  exact (buildChains_loaded chains w force evs w1 h).2 p hp t htl

lemma updW_self_point {w : WState} {t n : String} : updW w t (w t) n = w n := by
  by_cases h : n = t <;> simp [updW, h]

/-- The push phase over loaded images: an image is skipped exactly when
it was pulled and not built this run, and pushed exactly otherwise. -/
lemma graphPush_spec {env : EnvMap} :
    ∀ (ts : List String) (w : WState) (pevs : List BuildEvent) (w2 : WState),
      graphPush env ts w = (pevs, w2, .ok ()) →
      (∀ t ∈ ts, (w t).loaded = some true) →
      ∀ t, (BuildEvent.skippedPush t ∈ pevs ↔
              t ∈ ts ∧ (w t).was_pulled = true ∧ (w t).was_built = false) ∧
           (BuildEvent.triedPush t ∈ pevs ↔
              t ∈ ts ∧ ¬((w t).was_pulled = true ∧ (w t).was_built = false)) := by
  intro ts
  induction ts with
  | nil =>
    intro w pevs w2 h _ t
    simp only [graphPush] at h
    cases h
    constructor <;> simp
  | cons t0 rest ih =>
    intro w pevs w2 h hl t
    have hl0 : (w t0).loaded = some true := hl t0 (List.mem_cons_self _ _)
    have hil : isLoaded (env t0) (w t0) = (true, w t0) := by
      simp [isLoaded, hl0]
    simp only [graphPush, hil] at h
    have hlrest : ∀ m ∈ rest, (updW w t0 (w t0) m).loaded = some true := by
      intro m hm
      rw [updW_self_point]
      exact hl m (List.mem_cons_of_mem _ hm)
    by_cases hc : ((w t0).was_pulled && !(w t0).was_built) = true
    · rw [if_pos hc] at h
      have hcp : (w t0).was_pulled = true ∧ (w t0).was_built = false := by
        simp only [Bool.and_eq_true, Bool.not_eq_true'] at hc
        exact hc
      rcases hrec : graphPush env rest (updW w t0 (w t0)) with ⟨pevs1, wB, res1⟩
      rw [hrec] at h
      dsimp only at h
      cases h
      have hih := ih (updW w t0 (w t0)) _ _ hrec hlrest t
      have htr : ∀ m, updW w t0 (w t0) m = w m := fun m => updW_self_point
      rw [htr t] at hih
      constructor
      · constructor
        · intro hmem
          rcases List.mem_cons.mp hmem with heq | hmem2
          · cases heq
            exact ⟨List.mem_cons_self _ _, hcp⟩
          · obtain ⟨hm, hp⟩ := hih.1.mp hmem2
            exact ⟨List.mem_cons_of_mem _ hm, hp⟩
        · intro ⟨hmem, hp⟩
          rcases List.mem_cons.mp hmem with rfl | hmem2
          · exact List.mem_cons_self _ _
          · exact List.mem_cons_of_mem _ (hih.1.mpr ⟨hmem2, hp⟩)
      · constructor
        · intro hmem
          have hmem2 : BuildEvent.triedPush t ∈ pevs1 := by
            rcases List.mem_cons.mp hmem with heq | hmem2
            · cases heq
            · exact hmem2
          obtain ⟨hm, hp⟩ := hih.2.mp hmem2
          exact ⟨List.mem_cons_of_mem _ hm, hp⟩
        · intro ⟨hmem, hp⟩
          rcases List.mem_cons.mp hmem with rfl | hmem2
          · exact absurd hcp hp
          · exact List.mem_cons_of_mem _ (hih.2.mpr ⟨hmem2, hp⟩)
    · rw [if_neg hc] at h
      have hcp : ¬((w t0).was_pulled = true ∧ (w t0).was_built = false) := by
        simp only [Bool.and_eq_true, Bool.not_eq_true'] at hc
        exact hc
      cases hpu : imagePush (env t0) with
      | error e =>
        rw [hpu] at h
        dsimp only at h
        cases h
      | ok u =>
        rw [hpu] at h
        dsimp only at h
        rcases hrec : graphPush env rest (updW w t0 (w t0)) with ⟨pevs1, wB, res1⟩
        rw [hrec] at h
        dsimp only at h
        cases h
        have hih := ih (updW w t0 (w t0)) _ _ hrec hlrest t
        have htr : ∀ m, updW w t0 (w t0) m = w m := fun m => updW_self_point
        rw [htr t] at hih
        constructor
        · constructor
          · intro hmem
            have hmem2 : BuildEvent.skippedPush t ∈ pevs1 := by
              rcases List.mem_cons.mp hmem with heq | hmem2
              · cases heq
              · exact hmem2
            obtain ⟨hm, hp⟩ := hih.1.mp hmem2
            exact ⟨List.mem_cons_of_mem _ hm, hp⟩
          · intro ⟨hmem, hp⟩
            rcases List.mem_cons.mp hmem with rfl | hmem2
            · exact absurd hp hcp
            · exact List.mem_cons_of_mem _ (hih.1.mpr ⟨hmem2, hp⟩)
        · constructor
          · intro hmem
            rcases List.mem_cons.mp hmem with heq | hmem2
            · cases heq
              exact ⟨List.mem_cons_self _ _, hcp⟩
            · obtain ⟨hm, hp⟩ := hih.2.mp hmem2
              exact ⟨List.mem_cons_of_mem _ hm, hp⟩
          · intro ⟨hmem, hp⟩
            rcases List.mem_cons.mp hmem with rfl | hmem2
            · exact List.mem_cons_self _ _
            · exact List.mem_cons_of_mem _ (hih.2.mpr ⟨hmem2, hp⟩)

/-- C8: in the push phase after a successful build run, a requested
target's artifact is skipped if and only if it was pulled this run and
not built this run; otherwise a push is attempted. -/
theorem C8_push_skips_pulled_not_built :
    ∀ (cfg : PrefabConfig) (env : EnvMap) (w0 : WState) (targets : List String) (force : Bool)
      (evs : List BuildEvent) (w : WState) (chains : List (String × List String))
      (pushTs : List String) (pevs : List BuildEvent) (w2 : WState),
      resolveChains cfg targets = .ok chains →
      graphBuild cfg env w0 targets force = (evs, w, .ok ()) →
      (∀ t ∈ pushTs, t ∈ (chains.map Prod.snd).flatten) →
      graphPush env pushTs w = (pevs, w2, .ok ()) →
      ∀ t ∈ pushTs,
        (BuildEvent.skippedPush t ∈ pevs ↔
          (w t).was_pulled = true ∧ (w t).was_built = false) ∧
        (BuildEvent.triedPush t ∈ pevs ↔
          ¬((w t).was_pulled = true ∧ (w t).was_built = false)) := by
  intro cfg env w0 targets force evs w chains pushTs pevs w2 hres hb hsub hp t ht
  have hloaded : ∀ m ∈ pushTs, (w m).loaded = some true := fun m hm =>
    graphBuild_loaded hres hb m (hsub m hm)
  have hspec := graphPush_spec pushTs w pevs w2 hp hloaded t
  refine ⟨⟨fun hmem => (hspec.1.mp hmem).2, fun hcond => hspec.1.mpr ⟨ht, hcond⟩⟩,
    ⟨fun hmem => (hspec.2.mp hmem).2, fun hcond => hspec.2.mpr ⟨ht, hcond⟩⟩⟩

/-- Witness: C8 on a run with one pulled-not-built artifact (p) and one
built artifact (q) — p is skipped, q is pushed. -/
theorem C8_push_skips_pulled_not_built_witness :
    (BuildEvent.skippedPush "p" ∈
        (graphPush c8Env ["p", "q"] (graphBuild c8Cfg c8Env freshW ["p", "q"] false).2.1).1 ↔
      (((graphBuild c8Cfg c8Env freshW ["p", "q"] false).2.1) "p").was_pulled = true ∧
        (((graphBuild c8Cfg c8Env freshW ["p", "q"] false).2.1) "p").was_built = false) ∧
    (BuildEvent.triedPush "p" ∈
        (graphPush c8Env ["p", "q"] (graphBuild c8Cfg c8Env freshW ["p", "q"] false).2.1).1 ↔
      ¬((((graphBuild c8Cfg c8Env freshW ["p", "q"] false).2.1) "p").was_pulled = true ∧
        (((graphBuild c8Cfg c8Env freshW ["p", "q"] false).2.1) "p").was_built = false)) :=
  C8_push_skips_pulled_not_built c8Cfg c8Env freshW ["p", "q"] false
    (graphBuild c8Cfg c8Env freshW ["p", "q"] false).1
    (graphBuild c8Cfg c8Env freshW ["p", "q"] false).2.1
    [("p", ["p"]), ("q", ["q"])] ["p", "q"]
    (graphPush c8Env ["p", "q"] (graphBuild c8Cfg c8Env freshW ["p", "q"] false).2.1).1
    (graphPush c8Env ["p", "q"] (graphBuild c8Cfg c8Env freshW ["p", "q"] false).2.1).2.1
    rfl rfl (by decide) rfl "p" (by decide)

end Prefab

